import Mathlib

/-!
# cDNS: query orchestration, retry executor, nameserver preparation and task registry

A shallow embedding of `internal/dns/helper.go`, `internal/dns/client.go`,
`internal/dns/query.go`, `internal/dns/parser.go`, `internal/dns/types.go`,
`internal/task/manager.go` and the query and task handlers of `internal/api/handler.go`.

Conventions of the embedding:
* a Go `string` is a Lean `String` (a sequence of code points, i.e. valid UTF-8);
  `len` is the length in bytes of the UTF-8 encoding, as in Go;
* Go `int`, `time.Duration` and `time.Time` are mathematical integers;
* effects (the DNS client, `time.Sleep`, `time.Now`) act on an explicit `World`
  that keeps a chronological trace of what happened;
* the registry `Manager` and the result files are fields of an explicit `TaskState`;
  every operation on it runs alone, without interleaving of other goroutines.
-/

namespace CDNS

set_option maxRecDepth 100000

/-! ## Strings -/

/-- Go `len(s)`: the number of bytes of the UTF-8 encoding of `s`. -/
def len (s : String) : Nat := (s.data.map Char.utf8Size).sum

/-- Go `strings.HasPrefix`. -/
def HasPrefix (s pre : String) : Bool := pre.data.isPrefixOf s.data

/-- Go `strings.HasSuffix`. -/
def HasSuffix (s suf : String) : Bool := suf.data.isSuffixOf s.data

/-- Go `strings.TrimSuffix`: drop one trailing copy of `suf`, when `s` ends in it. -/
def TrimSuffix (s suf : String) : String :=
  if HasSuffix s suf then String.mk (s.data.take (s.data.length - suf.data.length)) else s

/-- Go `strings.Contains(s, sep)` for a separator `sep` of one character. -/
def Contains (s : String) (sep : Char) : Bool := s.data.contains sep

/-- Pieces of a character list between the occurrences of `sep`. -/
def splitChars (sep : Char) : List Char → List (List Char)
  | [] => [[]]
  | c :: cs =>
    if c = sep then [] :: splitChars sep cs
    else
      match splitChars sep cs with
      | [] => [[c]]
      | p :: ps => (c :: p) :: ps

/-- Go `strings.Split(s, sep)` for a separator `sep` of one character: all pieces
between the separators, the empty ones included; never the empty list. -/
def Split (s : String) (sep : Char) : List String := (splitChars sep s.data).map String.mk

/-! ## `IsValidDomain` (helper.go) -/

/-- The loop `for _, part := range parts` of `IsValidDomain`, with its early return. -/
def partsOk : List String → Bool
  | [] => true
  | part :: rest => if len part = 0 ∨ len part > 63 then false else partsOk rest

/-- Embedding of `IsValidDomain` (helper.go). -/
def IsValidDomain (domain : String) : Bool :=
  if len domain = 0 ∨ len domain > 253 then false
  else
    let domain := TrimSuffix domain "."
    let parts := Split domain '.'
    if parts.length < 2 then false
    else partsOk parts

/-- A name of 253 characters: labels of 63, 63, 63 and 61 letters. -/
def name253 : String :=
  String.mk (List.replicate 63 'a' ++ '.' :: List.replicate 63 'b' ++ '.' ::
    List.replicate 63 'c' ++ '.' :: List.replicate 61 'd')

/-- The same name in fully-qualified form, with its trailing dot. -/
def name253dot : String := String.mk (name253.data ++ ['.'])

/-! ## Records (types.go, parser.go) -/

/-- A resource record `dns.RR` of the DNS library, by the Go type `ParseRecord`
switches on, with the header TTL and the fields the parser reads. Addresses are kept
in their printed form (`rr.A.String()`); `other` is any record of another type, with
its printed form (`ans.String()`). -/
inductive RR where
  | A (ttl : Nat) (a : String)
  | AAAA (ttl : Nat) (aaaa : String)
  | CNAME (ttl : Nat) (target : String)
  | NS (ttl : Nat) (ns : String)
  | MX (ttl : Nat) (mx : String) (preference : Nat)
  | TXT (ttl : Nat) (txt : List String)
  | PTR (ttl : Nat) (ptr : String)
  | SRV (ttl : Nat) (target : String) (port priority weight : Nat)
  | SOA (ttl : Nat) (ns mbox : String) (serial refresh retry expire minttl : Nat)
  | CAA (ttl : Nat) (flag : Nat) (value : String)
  | other (ttl : Nat) (text : String)
  deriving DecidableEq, Repr

/-- The header TTL `ans.Header().Ttl`. -/
def RR.ttl : RR → Nat
  | .A t _ | .AAAA t _ | .CNAME t _ | .NS t _ | .MX t _ _ | .TXT t _ | .PTR t _
  | .SRV t _ _ _ _ | .SOA t _ _ _ _ _ _ _ | .CAA t _ _ | .other t _ => t

/-- The struct `ParsedRecord` of types.go; absent fields hold the zero values of Go. -/
structure ParsedRecord where
  TTL : Nat := 0
  Type_ : String := ""
  Address : String := ""
  Host : String := ""
  Pref : Nat := 0
  Text : String := ""
  Target : String := ""
  Port : Nat := 0
  Priority : Nat := 0
  Weight : Nat := 0
  Serial : Nat := 0
  Refresh : Nat := 0
  Retry : Nat := 0
  Expire : Nat := 0
  Minimum : Nat := 0
  MName : String := ""
  RName : String := ""
  Tag : Nat := 0
  Value : String := ""
  RawData : String := ""
  deriving DecidableEq, Repr

/-- Embedding of `ParseRecord` (parser.go). -/
def ParseRecord (ans : RR) (recordType : String) : ParsedRecord :=
  let parsed : ParsedRecord := { TTL := ans.ttl, Type_ := recordType }
  match ans with
  | .A _ a => { parsed with Address := a }
  | .AAAA _ aaaa => { parsed with Address := aaaa }
  | .CNAME _ target => { parsed with Address := target }
  | .NS _ ns => { parsed with Host := ns }
  | .MX _ mx preference => { parsed with Host := mx, Pref := preference }
  | .TXT _ txt => { parsed with Text := String.intercalate " " txt }
  | .PTR _ ptr => { parsed with Host := ptr }
  | .SRV _ target port priority weight =>
    { parsed with Target := target, Port := port, Priority := priority, Weight := weight }
  | .SOA _ ns mbox serial refresh retry expire minttl =>
    { parsed with MName := ns, RName := mbox, Serial := serial, Refresh := refresh,
                  Retry := retry, Expire := expire, Minimum := minttl }
  | .CAA _ flag value => { parsed with Tag := flag, Value := value }
  | .other _ text => { parsed with RawData := text }

/-! ## Configuration and the outside world -/

/-- The struct `Config` of config.go. `Timeout` is a `time.Duration`, `Retries` a Go `int`. -/
structure Config where
  Timeout : Int := 0
  Retries : Int := 0
  JSONOutput : Bool := false
  VerboseOutput : Bool := false
  RecordFilter : List String := []
  OutputFile : String := ""
  APIPort : Int := 0
  LogLevel : String := ""
  deriving DecidableEq, Repr

/-- What the program does to the outside, in the order it happens. -/
inductive Event where
  /-- Entry into `QueryDNSWithRetry` with this domain, nameserver and record type. -/
  | exec (domain nameserver : String) (recordType : Nat)
  /-- A call of `QueryDNS`: one exchange with the DNS client. -/
  | query (domain nameserver : String) (recordType : Nat) (timeout : Int)
  /-- A `time.Sleep` of this many seconds. -/
  | sleep (seconds : Int)
  deriving DecidableEq, Repr

/-- The state of the outside world: how many DNS exchanges and clock readings were
made, and the trace of events so far (oldest first). -/
structure World where
  calls : Nat := 0
  reads : Nat := 0
  trace : List Event := []
  deriving DecidableEq, Repr

/-- The parts of a run the program does not decide. -/
structure Env where
  /-- The answer of `QueryDNS` to its `i`-th call (counted from 0) with the given
  domain, nameserver, record type and timeout: the answer section, or an error. -/
  client : Nat → String → String → Nat → Int → Except String (List RR)
  /-- The value of the `i`-th reading of `time.Now`. -/
  clock : Nat → Int
  /-- The order in which `range` visits the keys of a map, given its keys: some
  permutation of them, which the theorems assume where they need it. -/
  mapOrder : List String → List String
  /-- The upper-case mapping `unicode.ToUpper` for characters outside ASCII. -/
  unicodeUpper : Char → Char
  /-- Whether `net.ParseIP` returns an address (not nil). -/
  parseIP : String → Bool
  /-- Whether `net.LookupHost` returns without error. -/
  lookupHost : String → Bool

/-- A reading of `time.Now()`. -/
def now (env : Env) (w : World) : Int × World :=
  (env.clock w.reads, { w with reads := w.reads + 1 })

/-- Go `time.Sleep(time.Duration(seconds) * time.Second)`. The event keeps the number of
seconds; the product stays within a `time.Duration` for all `seconds` below 9.2e9. -/
def Sleep (seconds : Int) (w : World) : World :=
  { w with trace := w.trace ++ [Event.sleep seconds] }

/-- Embedding of `QueryDNS` (query.go), the single-shot DNS client of the executor, as
its callers see it: its body is one exchange with the external DNS library, and the
answer section or the error it returns is given by the environment. -/
def QueryDNS (env : Env) (domain nameserver : String) (recordType : Nat) (timeout : Int)
    (w : World) : Except String (List RR) × World :=
  (env.client w.calls domain nameserver recordType timeout,
   { w with calls := w.calls + 1,
            trace := w.trace ++ [Event.query domain nameserver recordType timeout] })

/-! ## `QueryDNSWithRetry` (query.go) -/

/-- Go `%v` of an `error` value: `<nil>` for the nil error, else its message. -/
def fmtErr : Option String → String
  | none => "<nil>"
  | some e => e

/-- The error `fmt.Errorf("failed after %d attempts: %v", cfg.Retries, lastErr)`. -/
def failedAfter (retries : Int) (lastErr : Option String) : String :=
  "failed after " ++ toString retries ++ " attempts: " ++ fmtErr lastErr

/-- The loop `for attempt := 0; attempt < cfg.Retries; attempt++` of
`QueryDNSWithRetry`, entered at `attempt` with `remaining = cfg.Retries - attempt`
iterations to go, and the `return` after the loop. -/
def retryLoop (env : Env) (domain nameserver : String) (recordType : Nat) (cfg : Config) :
    (remaining : Nat) → (attempt : Nat) → (lastErr : Option String) → World →
    Except String (List RR) × World
  | 0, _, lastErr, w => (.error (failedAfter cfg.Retries lastErr), w)
  | remaining + 1, attempt, _, w =>
    match QueryDNS env domain nameserver recordType cfg.Timeout w with
    | (.ok records, w1) => (.ok records, w1)
    | (.error err, w1) =>
      let w2 := if (attempt : Int) < cfg.Retries - 1 then Sleep ((attempt : Int) + 1) w1 else w1
      retryLoop env domain nameserver recordType cfg remaining (attempt + 1) (some err) w2

/-- Embedding of `QueryDNSWithRetry` (query.go). -/
def QueryDNSWithRetry (env : Env) (domain nameserver : String) (recordType : Nat)
    (cfg : Config) (w : World) : Except String (List RR) × World :=
  retryLoop env domain nameserver recordType cfg cfg.Retries.toNat 0 none
    { w with trace := w.trace ++ [Event.exec domain nameserver recordType] }

/-- The events of `k` attempts of which only the last may succeed: a query each,
and a sleep of `i + 1` seconds after each attempt `i` but the last. -/
def attemptEvents (domain nameserver : String) (recordType : Nat) (timeout : Int)
    (k : Nat) : List Event :=
  (List.range k).flatMap fun i =>
    Event.query domain nameserver recordType timeout ::
      (if i + 1 < k then [Event.sleep ((i : Int) + 1)] else [])

/-- The sleeps of a trace, in order. -/
def sleepsOf : List Event → List Int
  | [] => []
  | .sleep s :: es => s :: sleepsOf es
  | _ :: es => sleepsOf es

/-- The number of DNS exchanges of a trace. -/
def queryCount : List Event → Nat
  | [] => 0
  | .query _ _ _ _ :: es => queryCount es + 1
  | _ :: es => queryCount es

/-! ## Maps and the record-type table (types.go) -/

/-- A Go `map[string]V`: its entries, with distinct keys. The order of the entries is
not observable: `range` visits the keys in the order `Env.mapOrder` picks. -/
structure GoMap (α : Type) where
  entries : List (String × α) := []
  deriving DecidableEq, Repr

/-- Lookup `m[k]` with its presence flag. -/
def GoMap.get {α : Type} (m : GoMap α) (k : String) : Option α := m.entries.lookup k

/-- Assignment of `v` to the key `k` in a list of entries. -/
def setEntry {α : Type} (k : String) (v : α) : List (String × α) → List (String × α)
  | [] => [(k, v)]
  | (k', v') :: rest => if k' = k then (k, v) :: rest else (k', v') :: setEntry k v rest

/-- Assignment `m[k] = v`. -/
def GoMap.set {α : Type} (m : GoMap α) (k : String) (v : α) : GoMap α :=
  { entries := setEntry k v m.entries }

/-- The keys of a map. -/
def GoMap.keys {α : Type} (m : GoMap α) : List String := m.entries.map Prod.fst

/-- The table `RecordTypes` of types.go. -/
def RecordTypes : GoMap Nat :=
  { entries := [("A", 1), ("AAAA", 28), ("MX", 15), ("NS", 2), ("CNAME", 5), ("TXT", 16),
                ("PTR", 12), ("SRV", 33), ("SOA", 6), ("CAA", 257), ("DNSKEY", 48),
                ("DS", 43), ("RRSIG", 46), ("NSEC", 47)] }

/-- Go `unicode.ToUpper`: ASCII letters by the fixed offset, other characters by the
Unicode table of the environment. -/
def upperRune (env : Env) (c : Char) : Char :=
  if c.toNat < 128 then c.toUpper else env.unicodeUpper c

/-- Go `strings.ToUpper`. -/
def ToUpper (env : Env) (s : String) : String := String.mk (s.data.map (upperRune env))

/-- Go `sort.Strings`: ascending in the order of Go strings (byte-wise, which on UTF-8
is the lexicographic order of the code points). -/
def sortStrings (l : List String) : List String :=
  l.insertionSort fun a b => a.data ≤ b.data

/-! ## `Nameserver` (query.go) -/

/-- The struct `Statistics` of types.go. -/
structure Statistics where
  TotalQueries : Int := 0
  SuccessfulQueries : Int := 0
  FailedQueries : Int := 0
  AverageResponseTime : Int := 0
  TotalResponseTime : Int := 0
  deriving DecidableEq, Repr

/-- The struct `Result` of types.go. -/
structure Result where
  Nameserver : String := ""
  Domain : String := ""
  QueryTime : Int := 0
  Records : GoMap (List ParsedRecord) := {}
  Errors : GoMap String := {}
  Statistics : Statistics := {}
  deriving DecidableEq, Repr

/-- The loop over `cfg.RecordFilter` that fills the fresh map `recordTypesToQuery`. -/
def filterRecordTypes (env : Env) : List String → GoMap Nat → GoMap Nat
  | [], m => m
  | recordName :: rest, m =>
    match RecordTypes.get (ToUpper env recordName) with
    | some recordType =>
      filterRecordTypes env rest (m.set (ToUpper env recordName) recordType)
    | none => filterRecordTypes env rest m

/-- The map `recordTypesToQuery` of `Nameserver`. -/
def recordTypesToQuery (env : Env) (cfg : Config) : GoMap Nat :=
  if cfg.RecordFilter.length > 0 then filterRecordTypes env cfg.RecordFilter {}
  else RecordTypes

/-- The slice `sortedRecordNames` of `Nameserver`: the keys in the order `range` gave
them, then sorted. -/
def sortedRecordNames (env : Env) (cfg : Config) : List String :=
  sortStrings (env.mapOrder (recordTypesToQuery env cfg).keys)

/-- The loop `for _, ans := range records` of `Nameserver`. -/
def appendRecords (recordName : String) : List RR → Result → Result
  | [], result => result
  | ans :: rest, result =>
    let parsed := ParseRecord ans recordName
    appendRecords recordName rest
      { result with
        Records := result.Records.set recordName
          ((result.Records.get recordName).getD [] ++ [parsed]) }

/-- One iteration of the loop `for _, recordName := range sortedRecordNames`. -/
def queryRecord (env : Env) (domain nameserver : String) (cfg : Config) (types : GoMap Nat)
    (recordName : String) (result : Result) (w : World) : Result × World :=
  let recordType := (types.get recordName).getD 0
  let result := { result with
    Statistics := { result.Statistics with
      TotalQueries := result.Statistics.TotalQueries + 1 } }
  let startTime := now env w
  let out := QueryDNSWithRetry env domain nameserver recordType cfg startTime.2
  let endTime := now env out.2
  let responseTime := endTime.1 - startTime.1
  let result := { result with
    Statistics := { result.Statistics with
      TotalResponseTime := result.Statistics.TotalResponseTime + responseTime } }
  match out.1 with
  | .error err =>
    ({ result with
        Errors := result.Errors.set recordName err
        Statistics := { result.Statistics with
          FailedQueries := result.Statistics.FailedQueries + 1 } }, endTime.2)
  | .ok records =>
    let result := { result with
      Statistics := { result.Statistics with
        SuccessfulQueries := result.Statistics.SuccessfulQueries + 1 } }
    if records.length = 0 then (result, endTime.2)
    else (appendRecords recordName records result, endTime.2)

/-- The loop `for _, recordName := range sortedRecordNames` of `Nameserver`. -/
def queryRecords (env : Env) (domain nameserver : String) (cfg : Config) (types : GoMap Nat) :
    List String → Result → World → Result × World
  | [], result, w => (result, w)
  | recordName :: rest, result, w =>
    let s := queryRecord env domain nameserver cfg types recordName result w
    queryRecords env domain nameserver cfg types rest s.1 s.2

/-- The closing computation of `AverageResponseTime`. -/
def withAverage (result : Result) : Result :=
  if result.Statistics.TotalQueries > 0 then
    { result with
      Statistics := { result.Statistics with
        AverageResponseTime :=
          Int.tdiv result.Statistics.TotalResponseTime result.Statistics.TotalQueries } }
  else result

/-- Embedding of `Nameserver` (query.go). -/
def Nameserver (env : Env) (domain nameserver : String) (cfg : Config) (w : World) :
    Result × World :=
  let originalNS := (Split nameserver ':').headD ""
  let queryTime := now env w
  let result : Result :=
    { Nameserver := originalNS, Domain := domain, QueryTime := queryTime.1,
      Records := {}, Errors := {}, Statistics := {} }
  let types := recordTypesToQuery env cfg
  let s := queryRecords env domain nameserver cfg types (sortedRecordNames env cfg) result
    queryTime.2
  (withAverage s.1, s.2)

/-- The record types handed to `QueryDNSWithRetry` in a trace, in order. -/
def execTypes : List Event → List Nat
  | [] => []
  | .exec _ _ recordType :: es => recordType :: execTypes es
  | _ :: es => execTypes es

/-- Equality of two names up to letter case: their upper-case forms agree. -/
def sameIgnoringCase (env : Env) (a b : String) : Prop := ToUpper env a = ToUpper env b

instance (env : Env) (a b : String) : Decidable (sameIgnoringCase env a b) := by
  unfold sameIgnoringCase; infer_instance

/-! ## `PrepareNameservers` (client.go) -/

/-- Go `bytealg.IndexByteString`: the position of the first `c`, if any. -/
def IndexByte : List Char → Char → Option Nat
  | [], _ => none
  | x :: xs, c => if x = c then some 0 else (IndexByte xs c).map (· + 1)

/-- Go `bytealg.LastIndexByteString`: the position of the last `c`, if any. -/
def LastIndexByte : List Char → Char → Option Nat
  | [], _ => none
  | x :: xs, c =>
    match LastIndexByte xs c with
    | some i => some (i + 1)
    | none => if x = c then some 0 else none

/-- The closing checks of `net.SplitHostPort`: no `[` from position `j` on, no `]` from
position `k` on; then the port is what follows the last colon, at position `i`. -/
def splitHostPortEnd (s : List Char) (host : List Char) (i j k : Nat) :
    Except String (String × String) :=
  if (IndexByte (s.drop j) '[').isSome then .error "unexpected '[' in address"
  else if (IndexByte (s.drop k) ']').isSome then .error "unexpected ']' in address"
  else .ok (String.mk host, String.mk (s.drop (i + 1)))

/-- Go `net.SplitHostPort` (standard library): host and port of `host:port`,
`[host]:port` or `[host%zone]:port`; the error is the reason of the `AddrError`. -/
def SplitHostPort (hostport : String) : Except String (String × String) :=
  let s := hostport.data
  match LastIndexByte s ':' with
  | none => .error "missing port in address"
  | some i =>
    if s.head? = some '[' then
      match IndexByte s ']' with
      | none => .error "missing ']' in address"
      | some end_ =>
        if end_ + 1 = s.length then .error "missing port in address"
        else if end_ + 1 = i then
          splitHostPortEnd s ((s.take end_).drop 1) i 1 (end_ + 1)
        else if s.get? (end_ + 1) = some ':' then .error "too many colons in address"
        else .error "missing port in address"
    else
      let host := s.take i
      if (IndexByte host ':').isSome then .error "too many colons in address"
      else splitHostPortEnd s host i 0 0

/-- The loop `for _, ns := range nameservers` of `PrepareNameservers`, with the slice
`prepared` built so far. -/
def prepareLoop (env : Env) : List String → List String → List String
  | [], prepared => prepared
  | ns :: rest, prepared =>
    if HasPrefix ns "-" then prepareLoop env rest prepared
    else
      let ns := if !Contains ns ':' then ns ++ ":53" else ns
      match SplitHostPort ns with
      | .error _ => prepareLoop env rest prepared
      | .ok (host, port) =>
        if !env.parseIP host && !env.lookupHost host then prepareLoop env rest prepared
        else prepareLoop env rest (prepared ++ [host ++ ":" ++ port])

/-- Embedding of `PrepareNameservers` (client.go). -/
def PrepareNameservers (env : Env) (nameservers : List String) : List String :=
  prepareLoop env nameservers []

/-- An environment in which `net.ParseIP` knows a few literal addresses and the
resolver one host name. -/
def literalEnv : Env where
  client := fun _ _ _ recordType _ =>
    if recordType = 1 then .ok [RR.A 300 "93.184.216.34"] else .ok []
  clock := fun i => 1000 * i
  mapOrder := fun l => l.reverse
  unicodeUpper := fun c => c
  parseIP := fun h => h ∈ ["8.8.8.8", "1.1.1.1", "::1"]
  lookupHost := fun h => h ∈ ["dns.google"]

/-- A client whose first exchange times out and whose later ones answer. -/
def flakyEnv : Env where
  client := fun i _ _ _ _ =>
    if i = 0 then .error "exchange failed: i/o timeout" else .ok [RR.A 300 "93.184.216.34"]
  clock := fun i => 1000 * i
  mapOrder := fun l => l
  unicodeUpper := fun c => c
  parseIP := fun h => h ∈ ["8.8.8.8", "1.1.1.1", "::1"]
  lookupHost := fun h => h ∈ ["dns.google"]

/-- A client that fails on every call, with the message `boom`. -/
def failingEnv : Env where
  client := fun _ _ _ _ _ => .error "boom"
  clock := fun i => i
  mapOrder := fun l => l
  unicodeUpper := fun c => c
  parseIP := fun _ => true
  lookupHost := fun _ => true

/-! ## The task registry (manager.go) -/

/-- The struct `BackgroundTask` of manager.go; `CompletedAt` is a pointer, `none` when
nil. -/
structure BackgroundTask where
  ID : String := ""
  Domain : String := ""
  Nameservers : List String := []
  Status : String := ""
  Results : List Result := []
  CreatedAt : Int := 0
  CompletedAt : Option Int := none
  Error : String := ""
  deriving DecidableEq, Repr

/-- The struct `TaskManager` of manager.go: the map from task id to task. The map holds
pointers; here an entry holds the task the pointer leads to, and a write through the
pointer is a write to the entry. The mutex is not modelled: every operation runs alone. -/
structure TaskManager where
  tasks : GoMap BackgroundTask := {}
  deriving DecidableEq, Repr

/-- Embedding of `TaskManager.AddTask`. -/
def TaskManager.AddTask (tm : TaskManager) (task : BackgroundTask) : TaskManager :=
  { tasks := tm.tasks.set task.ID task }

/-- Embedding of `TaskManager.GetTask`: the task and the flag `exists` as an option. -/
def TaskManager.GetTask (tm : TaskManager) (id : String) : Option BackgroundTask :=
  tm.tasks.get id

/-- The loop `for _, task := range tm.tasks` of `GetTasks`, over the keys in the order
of the iteration, with the slice `tasks` built so far. -/
def getTasksLoop (tm : TaskManager) (status : String) :
    List String → List BackgroundTask → List BackgroundTask
  | [], tasks => tasks
  | key :: rest, tasks =>
    match tm.tasks.get key with
    | none => getTasksLoop tm status rest tasks
    | some task =>
      if status = "" ∨ task.Status = status then getTasksLoop tm status rest (tasks ++ [task])
      else getTasksLoop tm status rest tasks

/-- Embedding of `TaskManager.GetTasks`: the slice it returns, and the registry after
the call. -/
def TaskManager.GetTasks (env : Env) (tm : TaskManager) (status : String) :
    List BackgroundTask × TaskManager :=
  (getTasksLoop tm status (env.mapOrder tm.tasks.keys) [], tm)

/-- Construction of a registry from the empty one by a sequence of `AddTask` calls. -/
def registryOf (adds : List BackgroundTask) : TaskManager :=
  adds.foldl TaskManager.AddTask {}

/-! ## The HTTP handlers and the background runner (handler.go, manager.go) -/

/-- The request body of the query endpoints, after `ShouldBindJSON`. -/
structure QueryRequest where
  Domain : String := ""
  Nameservers : List String := []
  Timeout : Int := 0
  Retries : Int := 0
  Filter : List String := []
  deriving DecidableEq, Repr

/-- The JSON bodies the handlers answer with. -/
inductive Body where
  | error (message : String)
  | results (results : List Result)
  | task (task : BackgroundTask)
  | tasks (tasks : List BackgroundTask)
  | accepted (taskID status : String)
  deriving DecidableEq, Repr

/-- Go `time.Second`, in nanoseconds. -/
def Second : Int := 1000000000

/-- The configuration both `QueryEndpoint` and `ProcessBackgroundTask` build from the
request: the timeout in seconds, and the defaults for a zero timeout or retry count. -/
def requestConfig (req : QueryRequest) : Config :=
  let cfg : Config :=
    { Timeout := req.Timeout * Second, Retries := req.Retries, RecordFilter := req.Filter }
  let cfg := if cfg.Timeout = 0 then { cfg with Timeout := 5 * Second } else cfg
  if cfg.Retries = 0 then { cfg with Retries := 3 } else cfg

/-- The function `IsFqdn` of the DNS library (miekg/dns): a trailing dot that is not
escaped by an odd number of backslashes. -/
def IsFqdn (s : String) : Bool :=
  if s.data = [] ∨ s.data.getLast? ≠ some '.' then false
  else
    let t := s.data.dropLast
    if t = [] ∨ t.getLast? ≠ some '\\' then true
    else
      let escapes := (t.reverse.takeWhile (· = '\\')).length
      match t.reverse.dropWhile (· = '\\') with
      | [] => (escapes + 1) % 2 ≠ 0
      | c :: _ => (escapes + c.utf8Size) % 2 ≠ 0

/-- The function `Fqdn` of the DNS library: the name with a trailing dot. -/
def Fqdn (s : String) : String := if IsFqdn s then s else s ++ "."

/-- The loop `for _, ns := range nameservers` of the handlers and of the runner: one
call of `Nameserver` per nameserver, the results appended in order. -/
def queryNameservers (env : Env) (domain : String) (cfg : Config) :
    List String → List Result → World → List Result × World
  | [], results, w => (results, w)
  | ns :: rest, results, w =>
    let r := Nameserver env domain ns cfg w
    queryNameservers env domain cfg rest (results ++ [r.1]) r.2

/-- Embedding of `Handler.QueryEndpoint` after the request is bound: the status code and
body of the answer, and the world after the call. -/
def QueryEndpoint (env : Env) (req : QueryRequest) (w : World) : (Nat × Body) × World :=
  let cfg := requestConfig req
  let domain := Fqdn req.Domain
  if !IsValidDomain domain then ((400, Body.error "Invalid domain"), w)
  else
    let nameservers := PrepareNameservers env req.Nameservers
    if nameservers.length = 0 then ((400, Body.error "No valid nameservers provided"), w)
    else
      let r := queryNameservers env domain cfg nameservers [] w
      ((200, Body.results r.1), r.2)

/-- Embedding of `Handler.GetTaskEndpoint`. -/
def GetTaskEndpoint (tm : TaskManager) (taskID : String) : Nat × Body :=
  match tm.GetTask taskID with
  | none => (404, Body.error "Task not found")
  | some taskObj => (200, Body.task taskObj)

/-- Embedding of `Handler.GetTasksEndpoint`. -/
def GetTasksEndpoint (env : Env) (tm : TaskManager) (status : String) : Nat × Body :=
  (200, Body.tasks (tm.GetTasks env status).1)

/-- The outcome of `saveResultsToFile` (marshalling and `os.WriteFile`), which the
program does not decide. -/
structure FileSys where
  /-- The error of the `i`-th call (counted from 0) writing these results under this
  file name, `none` when the file is written. -/
  save : Nat → List Result → String → Option String

/-- The state the background runner works on: the registry `Manager`, the outside
world, and the result files written so far with the number of attempts to write one. -/
structure TaskState where
  manager : TaskManager := {}
  world : World := {}
  saves : Nat := 0
  files : List (String × List Result) := []
  deriving DecidableEq, Repr

/-- A write through the pointer `task` the runner took from `Manager.tasks[taskID]`. -/
def TaskState.update (st : TaskState) (taskID : String)
    (f : BackgroundTask → BackgroundTask) : TaskState :=
  match st.manager.tasks.get taskID with
  | none => st
  | some task => { st with manager := { tasks := st.manager.tasks.set taskID (f task) } }

/-- Embedding of `saveResultsToFile` (manager.go): the error, if any, and the state with
the file written. -/
def saveResultsToFile (fs : FileSys) (results : List Result) (filename : String)
    (st : TaskState) : Option String × TaskState :=
  match fs.save st.saves results filename with
  | some err => (some err, { st with saves := st.saves + 1 })
  | none => (none, { st with saves := st.saves + 1, files := st.files ++ [(filename, results)] })

/-- Go `strings.ReplaceAll(s, old, new)` for `old` and `new` of one character. -/
def ReplaceAll (s : String) (old new : Char) : String :=
  String.mk (s.data.map fun c => if c = old then new else c)

/-- The body of `ProcessBackgroundTask` from the construction of the configuration to
its `return`s, the task being registered under `taskID`. -/
def runTask (env : Env) (fs : FileSys) (taskID : String) (req : QueryRequest)
    (st : TaskState) : TaskState :=
  let cfg := requestConfig req
  let domain := req.Domain
  if !IsValidDomain domain then
    st.update taskID fun task => { task with Status := "failed", Error := "Invalid domain" }
  else
    let nameservers := PrepareNameservers env req.Nameservers
    if nameservers.length = 0 then
      st.update taskID fun task =>
        { task with Status := "failed", Error := "No valid nameservers provided" }
    else
      let r := queryNameservers env domain cfg nameservers [] st.world
      let t := now env r.2
      let filename := "dns_results_" ++ ReplaceAll req.Domain '.' '_' ++ "_"
        ++ toString (t.1 / Second) ++ ".json"
      let saved := saveResultsToFile fs r.1 filename { st with world := t.2 }
      match saved.1 with
      | some _ =>
        saved.2.update taskID fun task =>
          { task with Status := "failed", Error := "Failed to save results to file" }
      | none =>
        saved.2.update taskID fun task => { task with Status := "completed", Results := r.1 }

/-- Embedding of `ProcessBackgroundTask` (manager.go), run without interleaving: `none`
is the nil-pointer panic when no task is registered under `taskID`; otherwise the task
is marked running, the body runs, and the deferred function sets `CompletedAt`. -/
def ProcessBackgroundTask (env : Env) (fs : FileSys) (taskID : String) (req : QueryRequest)
    (st : TaskState) : Option TaskState :=
  match st.manager.tasks.get taskID with
  | none => none
  | some _ =>
    let st := st.update taskID fun task => { task with Status := "running" }
    let st := runTask env fs taskID req st
    let completedAt := now env st.world
    some (({ st with world := completedAt.2 } : TaskState).update taskID fun task =>
      { task with CompletedAt := some completedAt.1 })

/-- Embedding of `Handler.BackgroundQueryEndpoint` after the request is bound, up to
the `go` statement: the new task is registered, and the answer names it. -/
def BackgroundQueryEndpoint (env : Env) (req : QueryRequest) (st : TaskState) :
    (Nat × Body) × String × TaskState :=
  let t1 := now env st.world
  let taskID := "task_" ++ toString t1.1
  let t2 := now env t1.2
  let taskObj : BackgroundTask :=
    { ID := taskID, Domain := req.Domain, Nameservers := req.Nameservers,
      Status := "pending", CreatedAt := t2.1 }
  ((202, Body.accepted taskID "pending"), taskID,
   { st with manager := st.manager.AddTask taskObj, world := t2.2 })

/-- The terminal states of a task: `CompletedAt` is set, and the task is either completed
with results and no error, or failed with an error and no results. -/
def TerminalTask (t : BackgroundTask) : Prop :=
  t.CompletedAt.isSome = true ∧
    ((t.Status = "completed" ∧ t.Results ≠ [] ∧ t.Error = "") ∨
     (t.Status = "failed" ∧ t.Error ≠ "" ∧ t.Results = []))

instance (t : BackgroundTask) : Decidable (TerminalTask t) := by
  unfold TerminalTask; infer_instance

/-- The invariant of the registry: a task in status `pending` carries no results and no
error. It holds of the empty registry, and the two places of the program that change
the registry keep it: `BackgroundQueryEndpoint`, the only caller of `AddTask`, and
`ProcessBackgroundTask`, the only writer of the fields of a task. -/
def PendingFresh (tm : TaskManager) : Prop :=
  ∀ (id : String) (t : BackgroundTask),
    tm.GetTask id = some t → t.Status = "pending" → t.Results = [] ∧ t.Error = ""

/-- A file system on which every write succeeds. -/
def goodDisk : FileSys where
  save := fun _ _ _ => none

/-- A file system on which every write fails. -/
def fullDisk : FileSys where
  save := fun _ _ _ => some "no space left on device"

/-- The request for the A records of `example.com` from one nameserver. -/
def exampleRequest : QueryRequest :=
  { Domain := "example.com", Nameservers := ["8.8.8.8"], Retries := 1, Filter := ["A"] }

/-- A pending task, as `BackgroundQueryEndpoint` registers it. -/
def pendingTask : BackgroundTask :=
  { ID := "task_1", Domain := "example.com", Nameservers := ["8.8.8.8"],
    Status := "pending", CreatedAt := 1 }

/-- A state whose registry holds the one task `pendingTask`. -/
def pendingState : TaskState :=
  { manager := registryOf [pendingTask] }

/-! # Theorems -/

/-! ## Evaluation of the definitions -/

example : QueryDNSWithRetry failingEnv "example.com." "8.8.8.8:53" 1
    { Retries := 3, Timeout := 5 } {} =
    (.error "failed after 3 attempts: boom",
     { calls := 3, reads := 0,
       trace := [.exec "example.com." "8.8.8.8:53" 1,
                 .query "example.com." "8.8.8.8:53" 1 5, .sleep 1,
                 .query "example.com." "8.8.8.8:53" 1 5, .sleep 2,
                 .query "example.com." "8.8.8.8:53" 1 5] }) := by rfl

example : QueryDNSWithRetry failingEnv "example.com." "8.8.8.8:53" 1
    { Retries := 0, Timeout := 5 } {} =
    (.error "failed after 0 attempts: <nil>",
     { calls := 0, reads := 0, trace := [.exec "example.com." "8.8.8.8:53" 1] }) := by rfl

example : IsValidDomain "example.com" = true := by decide
example : IsValidDomain "example.com." = true := by decide
example : IsValidDomain "com" = false := by decide
example : IsValidDomain "." = false := by decide
example : IsValidDomain "a..b" = false := by decide
example : Split "" '.' = [""] := by decide
example : Split "a.b." '.' = ["a", "b", ""] := by decide

example : QueryDNSWithRetry literalEnv "example.com." "8.8.8.8:53" 1
    { Retries := 3, Timeout := 5 } {} =
    (.ok [RR.A 300 "93.184.216.34"],
     { calls := 1, reads := 0,
       trace := [.exec "example.com." "8.8.8.8:53" 1,
                 .query "example.com." "8.8.8.8:53" 1 5] }) := by rfl

example : sortedRecordNames literalEnv { RecordFilter := ["MX", "a", "bogus", "mx"] }
    = ["A", "MX"] := by decide
example : (sortedRecordNames literalEnv {}).length = 14 := by decide
example : (Nameserver literalEnv "example.com." "8.8.8.8:53"
    { RecordFilter := ["MX", "a"], Retries := 0 } {}).1.Errors.entries =
    [("A", "failed after 0 attempts: <nil>"), ("MX", "failed after 0 attempts: <nil>")] := by
  decide

example : SplitHostPort "8.8.8.8:53" = .ok ("8.8.8.8", "53") := by rfl
example : SplitHostPort "[::1]:53" = .ok ("::1", "53") := by rfl
example : SplitHostPort "[::1]" = .error "missing port in address" := by rfl
example : SplitHostPort "[::1]:5:3" = .error "too many colons in address" := by rfl
example : SplitHostPort "[::1]x:53" = .error "missing port in address" := by rfl
example : SplitHostPort "a[b:53" = .error "unexpected '[' in address" := by rfl
example : SplitHostPort "host" = .error "missing port in address" := by rfl
example : PrepareNameservers literalEnv
    ["8.8.8.8", "-1.1.1.1", "dns.google:5353", "nowhere", "1.1.1.1:53"]
    = ["8.8.8.8:53", "dns.google:5353", "1.1.1.1:53"] := by decide

/-! ## The retry executor -/

theorem world_eta (w : World) : ({ w with calls := w.calls + 0, trace := w.trace ++ [] } : World) = w := by
  cases w; simp

/-- While the client keeps failing and attempts remain after the current one, the
loop goes on: `j` failures, each followed by its sleep. -/
theorem retryLoop_failures (env : Env) (domain nameserver : String) (recordType : Nat)
    (cfg : Config) (msg : Nat → String) :
    ∀ (j remaining attempt : Nat) (lastErr : Option String) (w : World),
      (∀ i, i < j → env.client (w.calls + i) domain nameserver recordType cfg.Timeout
          = .error (msg (w.calls + i))) →
      ((attempt + j : Nat) : Int) ≤ cfg.Retries - 1 →
      retryLoop env domain nameserver recordType cfg (remaining + j) attempt lastErr w =
        retryLoop env domain nameserver recordType cfg remaining (attempt + j)
          (if j = 0 then lastErr else some (msg (w.calls + j - 1)))
          { w with
            calls := w.calls + j
            trace := w.trace ++ (List.range' attempt j).flatMap fun i =>
              [Event.query domain nameserver recordType cfg.Timeout,
               Event.sleep ((i : Int) + 1)] } := by
  intro j
  induction j with
  | zero =>
    intro remaining attempt lastErr w _ _
    simp
  | succ j ih =>
    intro remaining attempt lastErr w hfail hle
    have h0 := hfail 0 (Nat.succ_pos j)
    simp only [Nat.add_zero] at h0
    have hlt : (attempt : Int) < cfg.Retries - 1 := by push_cast at hle; omega
    have hstep : retryLoop env domain nameserver recordType cfg (remaining + (j + 1)) attempt lastErr w
        = retryLoop env domain nameserver recordType cfg (remaining + j) (attempt + 1)
            (some (msg w.calls))
            (Sleep ((attempt : Int) + 1) (QueryDNS env domain nameserver recordType cfg.Timeout w).2) := by
      rw [show remaining + (j + 1) = (remaining + j) + 1 by omega]
      simp [retryLoop, QueryDNS, h0, hlt]
    rw [hstep, ih remaining (attempt + 1) (some (msg w.calls))]
    · have e1 : attempt + 1 + j = attempt + (j + 1) := by omega
      rw [e1]
      congr 1
      · by_cases hj : j = 0
        · subst hj; simp [Sleep, QueryDNS]
        · simp [hj, Sleep, QueryDNS]
      · simp [Sleep, QueryDNS, List.range'_succ, Nat.add_assoc, Nat.add_comm 1 j]
    · intro i hi
      have := hfail (i + 1) (by omega)
      simpa [Sleep, QueryDNS, Nat.add_assoc, Nat.add_comm 1 i] using this
    · push_cast at hle ⊢; omega


theorem attemptEvents_succ (domain nameserver : String) (recordType : Nat) (timeout : Int)
    (k : Nat) :
    attemptEvents domain nameserver recordType timeout (k + 1) =
      ((List.range' 0 k).flatMap fun i =>
        [Event.query domain nameserver recordType timeout, Event.sleep ((i : Int) + 1)])
      ++ [Event.query domain nameserver recordType timeout] := by
  unfold attemptEvents
  rw [List.range_succ, List.flatMap_append, ← List.range_eq_range']
  congr 1
  · apply List.flatMap_congr
    intro i hi
    have : i < k := List.mem_range.mp hi
    simp [this]
  · simp

theorem queryCount_append (l₁ l₂ : List Event) :
    queryCount (l₁ ++ l₂) = queryCount l₁ + queryCount l₂ := by
  induction l₁ with
  | nil => simp [queryCount]
  | cons e es ih => cases e <;> simp [queryCount, ih, Nat.add_right_comm]

theorem sleepsOf_append (l₁ l₂ : List Event) :
    sleepsOf (l₁ ++ l₂) = sleepsOf l₁ ++ sleepsOf l₂ := by
  induction l₁ with
  | nil => simp [sleepsOf]
  | cons e es ih => cases e <;> simp [sleepsOf, ih]

theorem queryCount_failures (q : Event) (hq : queryCount [q] = 1) (k a : Nat) :
    queryCount ((List.range' a k).flatMap fun i => [q, Event.sleep ((i : Int) + 1)]) = k := by
  induction k generalizing a with
  | zero => simp [queryCount]
  | succ k ih =>
    rw [List.range'_succ, List.flatMap_cons, queryCount_append, ih]
    have : queryCount [q, Event.sleep ((a : Int) + 1)] = 1 := by
      cases q <;> simp_all [queryCount]
    omega

theorem sleepsOf_failures (q : Event) (hq : sleepsOf [q] = []) (k a : Nat) :
    sleepsOf ((List.range' a k).flatMap fun i => [q, Event.sleep ((i : Int) + 1)])
      = (List.range' a k).map fun i => (i : Int) + 1 := by
  induction k generalizing a with
  | zero => simp [sleepsOf]
  | succ k ih =>
    rw [List.range'_succ, List.flatMap_cons, sleepsOf_append, ih]
    have : sleepsOf [q, Event.sleep ((a : Int) + 1)] = [(a : Int) + 1] := by
      cases q <;> simp_all [sleepsOf]
    simp [this]

/-- The attempts of a run hold one query per attempt. -/
theorem queryCount_attemptEvents (domain nameserver : String) (recordType : Nat)
    (timeout : Int) (k : Nat) :
    queryCount (attemptEvents domain nameserver recordType timeout k) = k := by
  cases k with
  | zero => simp [attemptEvents, queryCount]
  | succ k =>
    rw [attemptEvents_succ, queryCount_append, queryCount_failures _ (by simp [queryCount])]
    simp [queryCount]

/-- The sleeps of a run of `k` attempts are 1s, 2s, ..., (k-1)s. -/
theorem sleepsOf_attemptEvents (domain nameserver : String) (recordType : Nat)
    (timeout : Int) (k : Nat) :
    sleepsOf (attemptEvents domain nameserver recordType timeout k)
      = (List.range (k - 1)).map fun i => (i : Int) + 1 := by
  cases k with
  | zero => simp [attemptEvents, sleepsOf]
  | succ k =>
    rw [attemptEvents_succ, sleepsOf_append, sleepsOf_failures _ (by simp [sleepsOf])]
    simp [sleepsOf, List.range_eq_range']

/-- C2: with `cfg.Retries = n ≥ 1` and a client that fails on every call,
`QueryDNSWithRetry` calls the client exactly `n` times, sleeps 1s, 2s, ..., (n-1)s (one
sleep after each failed attempt except the last) and returns the error
"failed after n attempts: " followed by the message of the last client error. -/
theorem QueryDNSWithRetry_always_failing (env : Env) (domain nameserver : String)
    (recordType : Nat) (cfg : Config) (w : World) (n : Nat) (msg : Nat → String)
    (hn : 1 ≤ n) (hcfg : cfg.Retries = n)
    (hfail : ∀ i, env.client i domain nameserver recordType cfg.Timeout = .error (msg i)) :
    (QueryDNSWithRetry env domain nameserver recordType cfg w).1
        = .error ("failed after " ++ toString n ++ " attempts: " ++ msg (w.calls + n - 1)) ∧
    (QueryDNSWithRetry env domain nameserver recordType cfg w).2.calls = w.calls + n ∧
    (QueryDNSWithRetry env domain nameserver recordType cfg w).2.trace
        = w.trace ++ Event.exec domain nameserver recordType ::
            attemptEvents domain nameserver recordType cfg.Timeout n ∧
    queryCount (attemptEvents domain nameserver recordType cfg.Timeout n) = n ∧
    sleepsOf (attemptEvents domain nameserver recordType cfg.Timeout n)
        = (List.range (n - 1)).map (fun i => (i : Int) + 1) ∧
    (attemptEvents domain nameserver recordType cfg.Timeout n).getLast?
        = some (Event.query domain nameserver recordType cfg.Timeout) := by
  obtain ⟨k, rfl⟩ : ∃ k, n = k + 1 := ⟨n - 1, by omega⟩
  have hrun : QueryDNSWithRetry env domain nameserver recordType cfg w =
      (.error (failedAfter cfg.Retries (some (msg (w.calls + k)))),
       { w with
         calls := w.calls + (k + 1)
         trace := w.trace ++ Event.exec domain nameserver recordType ::
           attemptEvents domain nameserver recordType cfg.Timeout (k + 1) }) := by
    unfold QueryDNSWithRetry
    have ht : cfg.Retries.toNat = 1 + k := by rw [hcfg]; simp; omega
    rw [ht, retryLoop_failures env domain nameserver recordType cfg msg k 1 0 none _
      (fun i _ => hfail _) (by rw [hcfg]; push_cast; omega)]
    have hlast : ¬ (((0 + k : Nat) : Int) < cfg.Retries - 1) := by rw [hcfg]; push_cast; omega
    simp only [retryLoop, QueryDNS, hfail, hlast, if_false]
    simp [attemptEvents_succ, Nat.add_assoc]
  refine ⟨?_, ?_, ?_, queryCount_attemptEvents _ _ _ _ _, sleepsOf_attemptEvents _ _ _ _ _, ?_⟩
  · rw [hrun, hcfg]; rfl
  · rw [hrun]
  · rw [hrun]
  · rw [attemptEvents_succ]; simp


/-- C3: with `Retries = 0` the loop of `QueryDNSWithRetry` has no iteration: the client
is never called, whatever it would answer, and the call returns the error
"failed after 0 attempts: <nil>". -/
theorem QueryDNSWithRetry_zero_retries (env : Env) (domain nameserver : String)
    (recordType : Nat) (cfg : Config) (w : World) :
    QueryDNSWithRetry env domain nameserver recordType { cfg with Retries := 0 } w =
      (.error "failed after 0 attempts: <nil>",
       { w with trace := w.trace ++ [Event.exec domain nameserver recordType] }) := by
  rfl

/-- C4: with `cfg.Retries = n` and `1 ≤ k ≤ n`, if the client fails on attempts
`1..k-1` and succeeds on attempt `k`, then `QueryDNSWithRetry` calls the client exactly
`k` times, sleeps 1s, 2s, ..., (k-1)s between the attempts and not after the successful
one, and returns exactly the records of attempt `k`. -/
theorem QueryDNSWithRetry_succeeds_at (env : Env) (domain nameserver : String)
    (recordType : Nat) (cfg : Config) (w : World) (n k : Nat) (records : List RR)
    (hk : 1 ≤ k) (hkn : k ≤ n) (hcfg : cfg.Retries = n)
    (hfail : ∀ i, i + 1 < k →
      ∃ e, env.client (w.calls + i) domain nameserver recordType cfg.Timeout = .error e)
    (hok : env.client (w.calls + (k - 1)) domain nameserver recordType cfg.Timeout
      = .ok records) :
    (QueryDNSWithRetry env domain nameserver recordType cfg w).1 = .ok records ∧
    (QueryDNSWithRetry env domain nameserver recordType cfg w).2.calls = w.calls + k ∧
    (QueryDNSWithRetry env domain nameserver recordType cfg w).2.trace
        = w.trace ++ Event.exec domain nameserver recordType ::
            attemptEvents domain nameserver recordType cfg.Timeout k ∧
    queryCount (attemptEvents domain nameserver recordType cfg.Timeout k) = k ∧
    sleepsOf (attemptEvents domain nameserver recordType cfg.Timeout k)
        = (List.range (k - 1)).map (fun i => (i : Int) + 1) ∧
    (attemptEvents domain nameserver recordType cfg.Timeout k).getLast?
        = some (Event.query domain nameserver recordType cfg.Timeout) := by
  obtain ⟨j, rfl⟩ : ∃ j, k = j + 1 := ⟨k - 1, by omega⟩
  simp only [Nat.add_sub_cancel] at hok
  let msg : Nat → String := fun i =>
    match env.client i domain nameserver recordType cfg.Timeout with
    | .error e => e
    | .ok _ => ""
  have hmsg : ∀ i, i < j →
      env.client (w.calls + i) domain nameserver recordType cfg.Timeout
        = .error (msg (w.calls + i)) := by
    intro i hi
    obtain ⟨e, he⟩ := hfail i (by omega)
    simp only [msg, he]
  have hrun : QueryDNSWithRetry env domain nameserver recordType cfg w =
      (.ok records,
       { w with
         calls := w.calls + (j + 1)
         trace := w.trace ++ Event.exec domain nameserver recordType ::
           attemptEvents domain nameserver recordType cfg.Timeout (j + 1) }) := by
    unfold QueryDNSWithRetry
    have ht : cfg.Retries.toNat = (n - j) + j := by rw [hcfg]; simp; omega
    rw [ht, retryLoop_failures env domain nameserver recordType cfg msg j (n - j) 0 none
      { w with trace := w.trace ++ [Event.exec domain nameserver recordType] }
      hmsg (by rw [hcfg]; push_cast; omega)]
    obtain ⟨r, hr⟩ : ∃ r, n - j = r + 1 := ⟨n - j - 1, by omega⟩
    rw [hr]
    simp only [retryLoop, QueryDNS, hok]
    simp [attemptEvents_succ, Nat.add_assoc]
  refine ⟨?_, ?_, ?_, queryCount_attemptEvents _ _ _ _ _, sleepsOf_attemptEvents _ _ _ _ _, ?_⟩
  · rw [hrun]
  · rw [hrun]
  · rw [hrun]
  · rw [attemptEvents_succ]; simp


/-! ## Maps -/

theorem lookup_cons_eq {α : Type} (k a : String) (b : α) (l : List (String × α)) :
    ((a, b) :: l).lookup k = if k = a then some b else l.lookup k := by
  by_cases h : k = a
  · simp [List.lookup, h]
  · have hb : (k == a) = false := by simpa using h
    simp [List.lookup, hb, h]

theorem lookup_setEntry {α : Type} (k k' : String) (v : α) (l : List (String × α)) :
    (setEntry k v l).lookup k' = if k' = k then some v else l.lookup k' := by
  induction l with
  | nil => simp [setEntry, lookup_cons_eq]
  | cons p rest ih =>
    obtain ⟨a, b⟩ := p
    by_cases hak : a = k
    · subst hak
      simp only [setEntry, if_true, lookup_cons_eq]
      split <;> rfl
    · simp only [setEntry, hak, if_false, lookup_cons_eq, ih]
      by_cases h : k' = k
      · have : ¬ k' = a := fun e => hak (e.symm.trans h)
        simp [h, this]
        intro e; exact absurd e.symm hak
      · simp [h]

theorem GoMap.get_set {α : Type} (m : GoMap α) (k k' : String) (v : α) :
    (m.set k v).get k' = if k' = k then some v else m.get k' := by
  simp [GoMap.get, GoMap.set, lookup_setEntry]

theorem keys_setEntry {α : Type} (k : String) (v : α) (l : List (String × α)) :
    (setEntry k v l).map Prod.fst =
      if k ∈ l.map Prod.fst then l.map Prod.fst else l.map Prod.fst ++ [k] := by
  induction l with
  | nil => simp [setEntry]
  | cons p rest ih =>
    obtain ⟨a, b⟩ := p
    by_cases hak : a = k
    · simp [setEntry, hak]
    · have hne : ¬ k = a := fun e => hak e.symm
      by_cases hmem : k ∈ rest.map Prod.fst
      · rw [if_pos hmem] at ih
        have hmem' : ∃ x, (k, x) ∈ rest := by simpa using hmem
        simp [setEntry, hak, ih, hmem']
      · rw [if_neg hmem] at ih
        have hmem' : ¬ ∃ x, (k, x) ∈ rest := by simpa using hmem
        simp only [setEntry, hak, if_false, List.map_cons, ih]
        simp [hne, hmem']

theorem GoMap.keys_set {α : Type} (m : GoMap α) (k : String) (v : α) :
    (m.set k v).keys = if k ∈ m.keys then m.keys else m.keys ++ [k] := by
  simp only [GoMap.keys, GoMap.set, keys_setEntry]

theorem GoMap.nodup_keys_set {α : Type} (m : GoMap α) (k : String) (v : α)
    (h : m.keys.Nodup) : (m.set k v).keys.Nodup := by
  rw [GoMap.keys_set]
  by_cases hk : k ∈ m.keys
  · simpa [hk] using h
  · rw [if_neg hk]
    exact List.Nodup.append h (List.nodup_singleton k) (by simpa using hk)

theorem lookup_isSome_iff {α : Type} (k : String) (l : List (String × α)) :
    (l.lookup k).isSome ↔ k ∈ l.map Prod.fst := by
  induction l with
  | nil => simp
  | cons p rest ih =>
    obtain ⟨a, b⟩ := p
    by_cases h : k = a
    · simp [List.lookup, h]
    · have : (k == a) = false := by simpa using h
      simp only [List.lookup, this, ih, List.map_cons, List.mem_cons, h, false_or]

theorem GoMap.mem_keys_iff {α : Type} (m : GoMap α) (k : String) :
    k ∈ m.keys ↔ (m.get k).isSome := by
  simp only [GoMap.get, GoMap.keys, lookup_isSome_iff]

theorem GoMap.get_eq_none_iff {α : Type} (m : GoMap α) (k : String) :
    m.get k = none ↔ k ∉ m.keys := by
  rw [GoMap.mem_keys_iff]
  cases m.get k <;> simp


/-! ## Sorting -/

theorem sortStrings_perm (l : List String) : (sortStrings l).Perm l :=
  List.perm_insertionSort _ l

theorem sortStrings_sorted (l : List String) :
    (sortStrings l).Pairwise fun a b => a.data ≤ b.data :=
  @List.sorted_insertionSort String (fun a b => a.data ≤ b.data) _
    ⟨fun x y => le_total x.data y.data⟩ ⟨fun _ _ _ h₁ h₂ => le_trans h₁ h₂⟩ l

theorem sortStrings_congr {l₁ l₂ : List String} (h : l₁.Perm l₂) :
    sortStrings l₁ = sortStrings l₂ :=
  @List.eq_of_perm_of_sorted String (fun a b => a.data ≤ b.data)
    ⟨fun _ _ h₁ h₂ => String.ext (le_antisymm h₁ h₂)⟩ _ _
    ((sortStrings_perm l₁).trans (h.trans (sortStrings_perm l₂).symm))
    (sortStrings_sorted l₁) (sortStrings_sorted l₂)

theorem sortStrings_nodup {l : List String} (h : l.Nodup) : (sortStrings l).Nodup :=
  (sortStrings_perm l).nodup_iff.mpr h

theorem sortStrings_strict {l : List String} (h : l.Nodup) :
    (sortStrings l).Pairwise fun a b => a.data < b.data := by
  have h₁ := sortStrings_sorted l
  have h₂ : (sortStrings l).Pairwise (· ≠ ·) := sortStrings_nodup h
  refine (h₁.and h₂).imp ?_
  intro a b hab
  exact lt_of_le_of_ne hab.1 fun e => hab.2 (String.ext e)

/-! ## The selection of record types -/

theorem filterRecordTypes_nodup (env : Env) (filter : List String) (m : GoMap Nat)
    (h : m.keys.Nodup) : (filterRecordTypes env filter m).keys.Nodup := by
  induction filter generalizing m with
  | nil => simpa [filterRecordTypes] using h
  | cons f rest ih =>
    unfold filterRecordTypes
    split
    · exact ih _ (GoMap.nodup_keys_set m _ _ h)
    · exact ih _ h

theorem filterRecordTypes_get (env : Env) (filter : List String) (m : GoMap Nat) (k : String)
    (v : Nat) :
    (filterRecordTypes env filter m).get k = some v ↔
      ((∃ f ∈ filter, ToUpper env f = k) ∧ RecordTypes.get k = some v) ∨
      ((¬ ∃ f ∈ filter, ToUpper env f = k ∧ (RecordTypes.get k).isSome) ∧ m.get k = some v) := by
  induction filter generalizing m with
  | nil => simp [filterRecordTypes]
  | cons f rest ih =>
    unfold filterRecordTypes
    split
    · rename_i rt hrt
      rw [ih, GoMap.get_set]
      by_cases hk : k = ToUpper env f
      · subst hk
        simp only [hrt, List.mem_cons, exists_eq_or_imp, true_or, true_and, if_true,
          Option.isSome_some, and_true, not_true, false_and, or_false, and_self]
        constructor
        · rintro (h | h)
          · exact h.2
          · exact h.2
        · intro h
          by_cases hex : ∃ f' ∈ rest, ToUpper env f' = ToUpper env f
          · exact Or.inl ⟨hex, h⟩
          · exact Or.inr ⟨hex, h⟩
      · have hk' : ¬ ToUpper env f = k := fun e => hk e.symm
        simp [hk, hk']
    · rename_i hrt
      rw [ih]
      by_cases hk : k = ToUpper env f
      · subst hk
        simp [hrt]
      · have hk' : ¬ ToUpper env f = k := fun e => hk e.symm
        simp [hk']

/-- Each selected name is a key of the table, with the table's code. -/
theorem recordTypesToQuery_get (env : Env) (cfg : Config) (k : String) (v : Nat) :
    (recordTypesToQuery env cfg).get k = some v ↔
      RecordTypes.get k = some v ∧
        (cfg.RecordFilter = [] ∨ ∃ f ∈ cfg.RecordFilter, ToUpper env f = k) := by
  unfold recordTypesToQuery
  cases hf : cfg.RecordFilter with
  | nil => simp
  | cons f rest =>
    rw [if_pos (by simp), filterRecordTypes_get]
    have hempty : (({} : GoMap Nat).get k) = none := rfl
    simp only [hempty, reduceCtorEq, and_false, or_false, false_or]
    exact and_comm

theorem recordTypesToQuery_nodup (env : Env) (cfg : Config) :
    (recordTypesToQuery env cfg).keys.Nodup := by
  unfold recordTypesToQuery
  split
  · exact filterRecordTypes_nodup env _ _ (by simp [GoMap.keys])
  · decide

theorem mem_sortedRecordNames (env : Env) (cfg : Config)
    (hord : ∀ l, (env.mapOrder l).Perm l) (k : String) :
    k ∈ sortedRecordNames env cfg ↔ k ∈ (recordTypesToQuery env cfg).keys :=
  ((sortStrings_perm _).trans (hord _)).mem_iff

theorem sortedRecordNames_nodup (env : Env) (cfg : Config)
    (hord : ∀ l, (env.mapOrder l).Perm l) : (sortedRecordNames env cfg).Nodup :=
  sortStrings_nodup ((hord _).nodup_iff.mpr (recordTypesToQuery_nodup env cfg))


theorem mem_keys_recordTypesToQuery (env : Env) (cfg : Config) (k : String) :
    k ∈ (recordTypesToQuery env cfg).keys ↔
      k ∈ RecordTypes.keys ∧
        (cfg.RecordFilter = [] ∨ ∃ f ∈ cfg.RecordFilter, ToUpper env f = k) := by
  rw [GoMap.mem_keys_iff, GoMap.mem_keys_iff, Option.isSome_iff_exists, Option.isSome_iff_exists]
  constructor
  · rintro ⟨v, hv⟩
    exact ⟨⟨v, ((recordTypesToQuery_get env cfg k v).mp hv).1⟩,
      ((recordTypesToQuery_get env cfg k v).mp hv).2⟩
  · rintro ⟨⟨v, hv⟩, h⟩
    exact ⟨v, (recordTypesToQuery_get env cfg k v).mpr ⟨hv, h⟩⟩

/-- The names of the table are their own upper-case form. -/
theorem ToUpper_table_key (env : Env) (k : String) (h : k ∈ RecordTypes.keys) :
    ToUpper env k = k := by
  simp only [RecordTypes, GoMap.keys, List.map_cons, List.map_nil, List.mem_cons,
    List.mem_singleton, List.not_mem_nil, or_false] at h
  rcases h with h | h | h | h | h | h | h | h | h | h | h | h | h | h <;> subst h <;> rfl

theorem ToUpper_congr (env env' : Env) (h : env'.unicodeUpper = env.unicodeUpper)
    (s : String) : ToUpper env' s = ToUpper env s := by
  have : upperRune env' = upperRune env := by
    funext c; simp [upperRune, h]
  simp [ToUpper, this]

/-! ## Traces of the orchestration -/

theorem execTypes_append (l₁ l₂ : List Event) :
    execTypes (l₁ ++ l₂) = execTypes l₁ ++ execTypes l₂ := by
  induction l₁ with
  | nil => simp [execTypes]
  | cons e es ih => cases e <;> simp [execTypes, ih]

theorem retryLoop_trace (env : Env) (domain nameserver : String) (recordType : Nat)
    (cfg : Config) (remaining attempt : Nat) (lastErr : Option String) (w : World) :
    ∃ es, (retryLoop env domain nameserver recordType cfg remaining attempt lastErr w).2.trace
        = w.trace ++ es ∧ execTypes es = [] := by
  induction remaining generalizing attempt lastErr w with
  | zero => exact ⟨[], by simp [retryLoop], rfl⟩
  | succ r ih =>
    unfold retryLoop
    cases hc : env.client w.calls domain nameserver recordType cfg.Timeout with
    | ok records =>
      exact ⟨[Event.query domain nameserver recordType cfg.Timeout],
        by simp [QueryDNS, hc], rfl⟩
    | error err =>
      simp only [QueryDNS, hc]
      split
      · obtain ⟨es, hes, hex⟩ := ih (attempt + 1) (some err)
          (Sleep ((attempt : Int) + 1)
            { w with calls := w.calls + 1,
                     trace := w.trace ++ [Event.query domain nameserver recordType cfg.Timeout] })
        refine ⟨Event.query domain nameserver recordType cfg.Timeout ::
          Event.sleep ((attempt : Int) + 1) :: es, ?_, by simpa [execTypes] using hex⟩
        rw [hes]; simp [Sleep]
      · obtain ⟨es, hes, hex⟩ := ih (attempt + 1) (some err)
            { w with calls := w.calls + 1,
                     trace := w.trace ++ [Event.query domain nameserver recordType cfg.Timeout] }
        refine ⟨Event.query domain nameserver recordType cfg.Timeout :: es, ?_,
          by simpa [execTypes] using hex⟩
        rw [hes]; simp

/-- A call of the executor adds its own `exec` event, and client events after it. -/
theorem QueryDNSWithRetry_trace (env : Env) (domain nameserver : String) (recordType : Nat)
    (cfg : Config) (w : World) :
    ∃ es, (QueryDNSWithRetry env domain nameserver recordType cfg w).2.trace
        = w.trace ++ Event.exec domain nameserver recordType :: es ∧ execTypes es = [] := by
  obtain ⟨es, hes, hex⟩ := retryLoop_trace env domain nameserver recordType cfg
    cfg.Retries.toNat 0 none
    { w with trace := w.trace ++ [Event.exec domain nameserver recordType] }
  exact ⟨es, by rw [QueryDNSWithRetry, hes]; simp, hex⟩

/-- The world after one iteration of the loop of `Nameserver` does not depend on the
result built so far: a clock reading, the executor, a clock reading. -/
theorem queryRecord_world (env : Env) (domain nameserver : String) (cfg : Config)
    (types : GoMap Nat) (recordName : String) (result : Result) (w : World) :
    (queryRecord env domain nameserver cfg types recordName result w).2 =
      (now env (QueryDNSWithRetry env domain nameserver ((types.get recordName).getD 0) cfg
        (now env w).2).2).2 := by
  unfold queryRecord
  simp only
  split
  · rfl
  · split <;> rfl

theorem queryRecords_world (env : Env) (domain nameserver : String) (cfg : Config)
    (types : GoMap Nat) (names : List String) (result result' : Result) (w : World) :
    (queryRecords env domain nameserver cfg types names result w).2 =
      (queryRecords env domain nameserver cfg types names result' w).2 := by
  induction names generalizing result result' w with
  | nil => rfl
  | cons n rest ih =>
    simp only [queryRecords]
    rw [queryRecord_world env domain nameserver cfg types n result w,
      queryRecord_world env domain nameserver cfg types n result' w]
    exact ih _ _ _

theorem queryRecords_append (env : Env) (domain nameserver : String) (cfg : Config)
    (types : GoMap Nat) (l₁ l₂ : List String) (result : Result) (w : World) :
    queryRecords env domain nameserver cfg types (l₁ ++ l₂) result w =
      queryRecords env domain nameserver cfg types l₂
        (queryRecords env domain nameserver cfg types l₁ result w).1
        (queryRecords env domain nameserver cfg types l₁ result w).2 := by
  induction l₁ generalizing result w with
  | nil => rfl
  | cons n rest ih =>
    show queryRecords env domain nameserver cfg types (rest ++ l₂) _ _ = _
    rw [ih]
    rfl

theorem queryRecord_execTypes (env : Env) (domain nameserver : String) (cfg : Config)
    (types : GoMap Nat) (recordName : String) (result : Result) (w : World) :
    execTypes (queryRecord env domain nameserver cfg types recordName result w).2.trace =
      execTypes w.trace ++ [(types.get recordName).getD 0] := by
  rw [queryRecord_world]
  obtain ⟨es, hes, hex⟩ := QueryDNSWithRetry_trace env domain nameserver
    ((types.get recordName).getD 0) cfg (now env w).2
  simp only [now] at hes ⊢
  rw [hes, execTypes_append]
  simp [execTypes, hex]

theorem queryRecords_execTypes (env : Env) (domain nameserver : String) (cfg : Config)
    (types : GoMap Nat) (names : List String) (result : Result) (w : World) :
    execTypes (queryRecords env domain nameserver cfg types names result w).2.trace =
      execTypes w.trace ++ names.map fun n => (types.get n).getD 0 := by
  induction names generalizing result w with
  | nil => simp [queryRecords]
  | cons n rest ih =>
    simp only [queryRecords]
    rw [ih, queryRecord_execTypes]
    simp


theorem Nameserver_execTypes (env : Env) (domain nameserver : String) (cfg : Config)
    (w : World) (hord : ∀ l, (env.mapOrder l).Perm l) :
    execTypes (Nameserver env domain nameserver cfg w).2.trace =
      execTypes w.trace ++
        (sortedRecordNames env cfg).map fun n => (RecordTypes.get n).getD 0 := by
  unfold Nameserver
  simp only [queryRecords_execTypes, now]
  congr 1
  apply List.map_congr_left
  intro n hn
  have hk := (mem_sortedRecordNames env cfg hord n).mp hn
  rw [GoMap.mem_keys_iff, Option.isSome_iff_exists] at hk
  obtain ⟨v, hv⟩ := hk
  rw [hv, ((recordTypesToQuery_get env cfg n v).mp hv).1]

theorem sortedRecordNames_congr (env env' : Env) (cfg cfg' : Config)
    (hord : ∀ l, (env.mapOrder l).Perm l) (hord' : ∀ l, (env'.mapOrder l).Perm l)
    (hup : env'.unicodeUpper = env.unicodeUpper)
    (hperm : cfg'.RecordFilter.Perm cfg.RecordFilter) :
    sortedRecordNames env' cfg' = sortedRecordNames env cfg := by
  unfold sortedRecordNames
  apply sortStrings_congr
  refine (hord' _).trans (List.Perm.trans ?_ (hord _).symm)
  rw [List.perm_ext_iff_of_nodup (recordTypesToQuery_nodup env' cfg')
    (recordTypesToQuery_nodup env cfg)]
  intro k
  rw [mem_keys_recordTypesToQuery, mem_keys_recordTypesToQuery]
  have h1 : cfg'.RecordFilter = [] ↔ cfg.RecordFilter = [] :=
    ⟨fun h => by rw [h] at hperm; exact List.Perm.nil_eq hperm |>.symm,
     fun h => by rw [h] at hperm; exact List.Perm.eq_nil hperm⟩
  have h2 : (∃ f ∈ cfg'.RecordFilter, ToUpper env' f = k) ↔
      ∃ f ∈ cfg.RecordFilter, ToUpper env f = k := by
    constructor
    · rintro ⟨f, hf, he⟩
      exact ⟨f, hperm.mem_iff.mp hf, by rw [← ToUpper_congr env env' hup]; exact he⟩
    · rintro ⟨f, hf, he⟩
      exact ⟨f, hperm.mem_iff.mpr hf, by rw [ToUpper_congr env env' hup]; exact he⟩
  rw [h1, h2]

/-- C5: the record types `Nameserver` hands to the executor are those of the selected
names in strictly ascending lexicographic order of the (upper-case) names, whatever
the order of `cfg.RecordFilter` and the iteration order of the map; with the filter
`["MX", "A"]` the type A (code 1) is queried before MX (code 15). -/
theorem Nameserver_query_order (env : Env) (domain nameserver : String) (cfg : Config)
    (w : World) (hord : ∀ l, (env.mapOrder l).Perm l) :
    execTypes (Nameserver env domain nameserver cfg w).2.trace =
      execTypes w.trace ++
        (sortedRecordNames env cfg).map (fun n => (RecordTypes.get n).getD 0) ∧
    (sortedRecordNames env cfg).Pairwise (fun a b => a.data < b.data) ∧
    (∀ n ∈ sortedRecordNames env cfg, n ∈ RecordTypes.keys ∧ ToUpper env n = n) ∧
    (∀ (env' : Env) (cfg' : Config), (∀ l, (env'.mapOrder l).Perm l) →
      env'.unicodeUpper = env.unicodeUpper → cfg'.RecordFilter.Perm cfg.RecordFilter →
      sortedRecordNames env' cfg' = sortedRecordNames env cfg) ∧
    (cfg.RecordFilter = ["MX", "A"] →
      execTypes (Nameserver env domain nameserver cfg w).2.trace
        = execTypes w.trace ++ [1, 15]) := by
  have hkeys : ∀ n ∈ sortedRecordNames env cfg, n ∈ RecordTypes.keys := fun n hn =>
    ((mem_keys_recordTypesToQuery env cfg n).mp
      ((mem_sortedRecordNames env cfg hord n).mp hn)).1
  refine ⟨Nameserver_execTypes env domain nameserver cfg w hord, ?_, ?_, ?_, ?_⟩
  · exact sortStrings_strict ((hord _).nodup_iff.mpr (recordTypesToQuery_nodup env cfg))
  · exact fun n hn => ⟨hkeys n hn, ToUpper_table_key env n (hkeys n hn)⟩
  · exact fun env' cfg' hord' hup hperm =>
      sortedRecordNames_congr env env' cfg cfg' hord hord' hup hperm
  · intro hf
    rw [Nameserver_execTypes env domain nameserver cfg w hord]
    have hs : sortedRecordNames env cfg = ["A", "MX"] := by
      unfold sortedRecordNames
      rw [sortStrings_congr (hord _)]
      unfold recordTypesToQuery
      rw [hf]
      rfl
    rw [hs]
    rfl

/-- C6: the record types `Nameserver` queries are, for an empty `cfg.RecordFilter`, all 14
entries of `RecordTypes`, and otherwise exactly the table entries whose name equals
some filter element up to letter case; each is queried once, with its table code, and
a non-empty filter without a known name yields no query. -/
theorem Nameserver_selection (env : Env) (domain nameserver : String) (cfg : Config)
    (w : World) (hord : ∀ l, (env.mapOrder l).Perm l) :
    execTypes (Nameserver env domain nameserver cfg w).2.trace =
      execTypes w.trace ++
        (sortedRecordNames env cfg).map (fun n => (RecordTypes.get n).getD 0) ∧
    (sortedRecordNames env cfg).Nodup ∧
    (cfg.RecordFilter = [] →
      (sortedRecordNames env cfg).Perm RecordTypes.keys ∧
      (sortedRecordNames env cfg).length = 14) ∧
    (cfg.RecordFilter ≠ [] → ∀ name, name ∈ sortedRecordNames env cfg ↔
      name ∈ RecordTypes.keys ∧ ∃ f ∈ cfg.RecordFilter, sameIgnoringCase env f name) ∧
    (cfg.RecordFilter ≠ [] →
      (∀ f ∈ cfg.RecordFilter, ∀ name ∈ RecordTypes.keys, ¬ sameIgnoringCase env f name) →
      sortedRecordNames env cfg = [] ∧
      execTypes (Nameserver env domain nameserver cfg w).2.trace = execTypes w.trace) := by
  have hmem : cfg.RecordFilter ≠ [] → ∀ name, name ∈ sortedRecordNames env cfg ↔
      name ∈ RecordTypes.keys ∧ ∃ f ∈ cfg.RecordFilter, sameIgnoringCase env f name := by
    intro hne name
    rw [mem_sortedRecordNames env cfg hord, mem_keys_recordTypesToQuery]
    constructor
    · rintro ⟨hk, h⟩
      rcases h with h | ⟨f, hf, he⟩
      · exact absurd h hne
      · exact ⟨hk, f, hf, by rw [sameIgnoringCase, ToUpper_table_key env name hk]; exact he⟩
    · rintro ⟨hk, f, hf, he⟩
      rw [sameIgnoringCase, ToUpper_table_key env name hk] at he
      exact ⟨hk, Or.inr ⟨f, hf, he⟩⟩
  refine ⟨Nameserver_execTypes env domain nameserver cfg w hord,
    sortedRecordNames_nodup env cfg hord, ?_, hmem, ?_⟩
  · intro hf
    have hp : (sortedRecordNames env cfg).Perm RecordTypes.keys := by
      unfold sortedRecordNames
      refine (sortStrings_perm _).trans ((hord _).trans ?_)
      simp [recordTypesToQuery, hf]
    exact ⟨hp, by rw [hp.length_eq]; rfl⟩
  · intro hne hnone
    have hs : sortedRecordNames env cfg = [] := by
      apply List.eq_nil_iff_forall_not_mem.mpr
      intro name hn
      obtain ⟨hk, f, hf, he⟩ := (hmem hne name).mp hn
      exact hnone f hf name hk he
    refine ⟨hs, ?_⟩
    rw [Nameserver_execTypes env domain nameserver cfg w hord, hs]
    simp


/-! ## The loop of `Nameserver`, one record type at a time -/

theorem appendRecords_fields (recordName : String) (records : List RR) (result : Result) :
    (appendRecords recordName records result).Errors = result.Errors ∧
    (appendRecords recordName records result).Statistics = result.Statistics ∧
    (appendRecords recordName records result).Nameserver = result.Nameserver ∧
    (appendRecords recordName records result).Domain = result.Domain ∧
    (appendRecords recordName records result).QueryTime = result.QueryTime := by
  induction records generalizing result with
  | nil => simp [appendRecords]
  | cons a rest ih =>
    simp only [appendRecords]
    obtain ⟨h1, h2, h3, h4, h5⟩ := ih
      { result with
        Records := result.Records.set recordName
          ((result.Records.get recordName).getD [] ++ [ParseRecord a recordName]) }
    exact ⟨h1, h2, h3, h4, h5⟩

theorem appendRecords_get (recordName : String) (records : List RR) (result : Result)
    (k : String) :
    (appendRecords recordName records result).Records.get k =
      if k = recordName ∧ records ≠ [] then
        some ((result.Records.get recordName).getD [] ++
          records.map fun ans => ParseRecord ans recordName)
      else result.Records.get k := by
  induction records generalizing result with
  | nil => simp [appendRecords]
  | cons a rest ih =>
    simp only [appendRecords]
    rw [ih]
    by_cases hk : k = recordName
    · subst hk
      by_cases hr : rest = []
      · subst hr
        simp [GoMap.get_set]
      · simp [hr, GoMap.get_set]
    · simp [hk, GoMap.get_set]

/-- What one iteration does to the result when the executor fails. -/
theorem queryRecord_error (env : Env) (domain nameserver : String) (cfg : Config)
    (types : GoMap Nat) (recordName : String) (result : Result) (w : World) (e : String)
    (h : (QueryDNSWithRetry env domain nameserver ((types.get recordName).getD 0) cfg
      (now env w).2).1 = .error e) :
    (queryRecord env domain nameserver cfg types recordName result w).1.Errors
      = result.Errors.set recordName e ∧
    (queryRecord env domain nameserver cfg types recordName result w).1.Records
      = result.Records ∧
    (queryRecord env domain nameserver cfg types recordName result w).1.Statistics.TotalQueries
      = result.Statistics.TotalQueries + 1 ∧
    (queryRecord env domain nameserver cfg types recordName result w).1.Statistics.SuccessfulQueries
      = result.Statistics.SuccessfulQueries ∧
    (queryRecord env domain nameserver cfg types recordName result w).1.Statistics.FailedQueries
      = result.Statistics.FailedQueries + 1 := by
  unfold queryRecord
  simp [h]

/-- What one iteration does to the result when the executor succeeds. -/
theorem queryRecord_ok (env : Env) (domain nameserver : String) (cfg : Config)
    (types : GoMap Nat) (recordName : String) (result : Result) (w : World)
    (records : List RR)
    (h : (QueryDNSWithRetry env domain nameserver ((types.get recordName).getD 0) cfg
      (now env w).2).1 = .ok records) :
    (queryRecord env domain nameserver cfg types recordName result w).1.Errors
      = result.Errors ∧
    (∀ k, (queryRecord env domain nameserver cfg types recordName result w).1.Records.get k
      = if k = recordName ∧ records ≠ [] then
          some ((result.Records.get recordName).getD [] ++
            records.map fun ans => ParseRecord ans recordName)
        else result.Records.get k) ∧
    (queryRecord env domain nameserver cfg types recordName result w).1.Statistics.TotalQueries
      = result.Statistics.TotalQueries + 1 ∧
    (queryRecord env domain nameserver cfg types recordName result w).1.Statistics.SuccessfulQueries
      = result.Statistics.SuccessfulQueries + 1 ∧
    (queryRecord env domain nameserver cfg types recordName result w).1.Statistics.FailedQueries
      = result.Statistics.FailedQueries := by
  unfold queryRecord
  simp only [h]
  by_cases hr : records = []
  · subst hr
    simp
  · have hlen : ¬ records.length = 0 := by simpa using hr
    simp only [hlen, if_false]
    refine ⟨(appendRecords_fields _ _ _).1, ?_, ?_, ?_, ?_⟩
    · intro k
      rw [appendRecords_get]
    · rw [(appendRecords_fields _ _ _).2.1]
    · rw [(appendRecords_fields _ _ _).2.1]
    · rw [(appendRecords_fields _ _ _).2.1]


/-- The counters and the keys of `Errors` after one iteration: either the executor
failed (one more key, one more failure) or it succeeded. -/
theorem queryRecord_counters (env : Env) (domain nameserver : String) (cfg : Config)
    (types : GoMap Nat) (recordName : String) (result : Result) (w : World)
    (hfresh : recordName ∉ result.Errors.keys) :
    ∃ failed : Bool,
      (queryRecord env domain nameserver cfg types recordName result w).1.Errors.keys
        = (if failed then result.Errors.keys ++ [recordName] else result.Errors.keys) ∧
      (queryRecord env domain nameserver cfg types recordName result w).1.Statistics.TotalQueries
        = result.Statistics.TotalQueries + 1 ∧
      (queryRecord env domain nameserver cfg types recordName result w).1.Statistics.SuccessfulQueries
        = result.Statistics.SuccessfulQueries + (if failed then 0 else 1) ∧
      (queryRecord env domain nameserver cfg types recordName result w).1.Statistics.FailedQueries
        = result.Statistics.FailedQueries + (if failed then 1 else 0) := by
  cases h : (QueryDNSWithRetry env domain nameserver ((types.get recordName).getD 0) cfg
      (now env w).2).1 with
  | error e =>
    obtain ⟨h1, _, h3, h4, h5⟩ :=
      queryRecord_error env domain nameserver cfg types recordName result w e h
    refine ⟨true, ?_, h3, by simpa using h4, by simpa using h5⟩
    rw [h1, GoMap.keys_set, if_neg hfresh]
    rfl
  | ok records =>
    obtain ⟨h1, _, h3, h4, h5⟩ :=
      queryRecord_ok env domain nameserver cfg types recordName result w records h
    exact ⟨false, by rw [h1]; rfl, h3, by simpa using h4, by simpa using h5⟩

theorem queryRecords_counters (env : Env) (domain nameserver : String) (cfg : Config)
    (types : GoMap Nat) (names : List String) (result : Result) (w : World)
    (hnd : names.Nodup) (hfresh : ∀ n ∈ names, n ∉ result.Errors.keys)
    (hkeys : result.Errors.keys.Nodup) :
    (queryRecords env domain nameserver cfg types names result w).1.Statistics.TotalQueries
      = result.Statistics.TotalQueries + names.length ∧
    (queryRecords env domain nameserver cfg types names result w).1.Statistics.SuccessfulQueries
      + (queryRecords env domain nameserver cfg types names result w).1.Statistics.FailedQueries
      = result.Statistics.SuccessfulQueries + result.Statistics.FailedQueries + names.length ∧
    (queryRecords env domain nameserver cfg types names result w).1.Statistics.FailedQueries
      + result.Errors.keys.length
      = result.Statistics.FailedQueries
        + (queryRecords env domain nameserver cfg types names result w).1.Errors.keys.length ∧
    (queryRecords env domain nameserver cfg types names result w).1.Errors.keys.Nodup := by
  induction names generalizing result w with
  | nil => simp [queryRecords, hkeys]
  | cons n rest ih =>
    have hn : n ∉ result.Errors.keys := hfresh n (List.mem_cons_self _ _)
    obtain ⟨failed, hk, hT, hS, hF⟩ :=
      queryRecord_counters env domain nameserver cfg types n result w hn
    have hnd' : rest.Nodup := (List.nodup_cons.mp hnd).2
    have hnr : n ∉ rest := (List.nodup_cons.mp hnd).1
    have hkeys' : (queryRecord env domain nameserver cfg types n result w).1.Errors.keys.Nodup := by
      rw [hk]
      cases failed
      · simpa using hkeys
      · simp only [if_true]
        exact List.Nodup.append hkeys (List.nodup_singleton n) (by simpa using hn)
    have hfresh' : ∀ m ∈ rest,
        m ∉ (queryRecord env domain nameserver cfg types n result w).1.Errors.keys := by
      intro m hm
      rw [hk]
      have h1 : m ∉ result.Errors.keys := hfresh m (List.mem_cons_of_mem _ hm)
      have h2 : m ≠ n := fun e => hnr (e ▸ hm)
      cases failed
      · simpa using h1
      · simp [h1, h2]
    obtain ⟨iT, iS, iF, iN⟩ := ih _
      (queryRecord env domain nameserver cfg types n result w).2 hnd' hfresh' hkeys'
    simp only [queryRecords]
    refine ⟨?_, ?_, ?_, iN⟩
    · rw [iT, hT]; simp only [List.length_cons]; push_cast; omega
    · rw [iS, hS, hF]; simp only [List.length_cons]; push_cast
      cases failed <;> simp <;> omega
    · have hlen : ((queryRecord env domain nameserver cfg types n result w).1.Errors.keys.length : Int)
          = result.Errors.keys.length + (if failed then 1 else 0) := by
        rw [hk]; cases failed <;> simp
      rw [hF] at iF
      omega

theorem withAverage_fields (result : Result) :
    (withAverage result).Errors = result.Errors ∧
    (withAverage result).Records = result.Records ∧
    (withAverage result).Statistics.TotalQueries = result.Statistics.TotalQueries ∧
    (withAverage result).Statistics.SuccessfulQueries = result.Statistics.SuccessfulQueries ∧
    (withAverage result).Statistics.FailedQueries = result.Statistics.FailedQueries := by
  unfold withAverage
  split <;> simp

/-- C7: the `Result` of `Nameserver` has `TotalQueries` equal to the number of selected
record types, `SuccessfulQueries + FailedQueries = TotalQueries`, and `FailedQueries`
equal to the number of keys of `Errors`; for the filter `["A"]` and one retry,
`TotalQueries = 1` and `SuccessfulQueries + FailedQueries = 1`. -/
theorem Nameserver_statistics (env : Env) (domain nameserver : String) (cfg : Config)
    (w : World) (hord : ∀ l, (env.mapOrder l).Perm l) :
    (Nameserver env domain nameserver cfg w).1.Statistics.TotalQueries
      = (sortedRecordNames env cfg).length ∧
    ((sortedRecordNames env cfg).length : Int)
      = (execTypes (Nameserver env domain nameserver cfg w).2.trace).length
        - (execTypes w.trace).length ∧
    (Nameserver env domain nameserver cfg w).1.Statistics.SuccessfulQueries
      + (Nameserver env domain nameserver cfg w).1.Statistics.FailedQueries
      = (Nameserver env domain nameserver cfg w).1.Statistics.TotalQueries ∧
    (Nameserver env domain nameserver cfg w).1.Statistics.FailedQueries
      = (Nameserver env domain nameserver cfg w).1.Errors.keys.length ∧
    (Nameserver env domain nameserver cfg w).1.Errors.keys.Nodup ∧
    (cfg.RecordFilter = ["A"] → cfg.Retries = 1 →
      (Nameserver env domain nameserver cfg w).1.Statistics.TotalQueries = 1 ∧
      (Nameserver env domain nameserver cfg w).1.Statistics.SuccessfulQueries
        + (Nameserver env domain nameserver cfg w).1.Statistics.FailedQueries = 1) := by
  have hex := Nameserver_execTypes env domain nameserver cfg w hord
  obtain ⟨iT, iS, iF, iN⟩ := queryRecords_counters env domain nameserver cfg
    (recordTypesToQuery env cfg) (sortedRecordNames env cfg)
    { Nameserver := (Split nameserver ':').headD "", Domain := domain,
      QueryTime := (now env w).1, Records := {}, Errors := {}, Statistics := {} }
    (now env w).2 (sortedRecordNames_nodup env cfg hord)
    (fun n _ => by simp [GoMap.keys]) (by simp [GoMap.keys])
  simp only [GoMap.keys, List.map_nil, List.length_nil, Int.add_zero, Nat.cast_zero,
    Int.zero_add] at iT iS iF
  have hT : (Nameserver env domain nameserver cfg w).1.Statistics.TotalQueries
      = (sortedRecordNames env cfg).length := by
    unfold Nameserver
    simp only [(withAverage_fields _).2.2.1]
    exact iT
  have hSF : (Nameserver env domain nameserver cfg w).1.Statistics.SuccessfulQueries
      + (Nameserver env domain nameserver cfg w).1.Statistics.FailedQueries
      = (sortedRecordNames env cfg).length := by
    unfold Nameserver
    simp only [(withAverage_fields _).2.2.2.1, (withAverage_fields _).2.2.2.2]
    exact iS
  refine ⟨hT, ?_, hSF.trans hT.symm, ?_, ?_, ?_⟩
  · rw [hex]; simp
  · unfold Nameserver
    simp only [(withAverage_fields _).2.2.2.2, (withAverage_fields _).1]
    exact iF
  · unfold Nameserver
    simp only [(withAverage_fields _).1]
    exact iN
  · intro hf _
    have hs : sortedRecordNames env cfg = ["A"] := by
      unfold sortedRecordNames
      rw [sortStrings_congr (hord _)]
      unfold recordTypesToQuery
      rw [hf]
      rfl
    rw [hs] at hT hSF
    exact ⟨by simpa using hT, by simpa using hSF⟩


theorem queryRecord_other_key (env : Env) (domain nameserver : String) (cfg : Config)
    (types : GoMap Nat) (recordName : String) (result : Result) (w : World) (k : String)
    (hk : k ≠ recordName) :
    (queryRecord env domain nameserver cfg types recordName result w).1.Errors.get k
      = result.Errors.get k ∧
    (queryRecord env domain nameserver cfg types recordName result w).1.Records.get k
      = result.Records.get k := by
  cases h : (QueryDNSWithRetry env domain nameserver ((types.get recordName).getD 0) cfg
      (now env w).2).1 with
  | error e =>
    obtain ⟨h1, h2, _⟩ :=
      queryRecord_error env domain nameserver cfg types recordName result w e h
    rw [h1, h2, GoMap.get_set, if_neg hk]
    exact ⟨rfl, rfl⟩
  | ok records =>
    obtain ⟨h1, h2, _⟩ :=
      queryRecord_ok env domain nameserver cfg types recordName result w records h
    rw [h1, h2 k, if_neg (fun c => hk c.1)]
    exact ⟨rfl, rfl⟩

theorem queryRecords_other_key (env : Env) (domain nameserver : String) (cfg : Config)
    (types : GoMap Nat) (names : List String) (result : Result) (w : World) (k : String)
    (hk : k ∉ names) :
    (queryRecords env domain nameserver cfg types names result w).1.Errors.get k
      = result.Errors.get k ∧
    (queryRecords env domain nameserver cfg types names result w).1.Records.get k
      = result.Records.get k := by
  induction names generalizing result w with
  | nil => exact ⟨rfl, rfl⟩
  | cons n rest ih =>
    have hkn : k ≠ n := fun e => hk (e ▸ List.mem_cons_self _ _)
    have hkr : k ∉ rest := fun h => hk (List.mem_cons_of_mem _ h)
    obtain ⟨h1, h2⟩ := queryRecord_other_key env domain nameserver cfg types n result w k hkn
    obtain ⟨i1, i2⟩ := ih (queryRecord env domain nameserver cfg types n result w).1
      (queryRecord env domain nameserver cfg types n result w).2 hkr
    simp only [queryRecords]
    exact ⟨i1.trans h1, i2.trans h2⟩

theorem queryRecords_trace_extends (env : Env) (domain nameserver : String) (cfg : Config)
    (types : GoMap Nat) (names : List String) (result : Result) (w : World) :
    w.trace <+: (queryRecords env domain nameserver cfg types names result w).2.trace := by
  induction names generalizing result w with
  | nil => exact List.prefix_refl _
  | cons n rest ih =>
    simp only [queryRecords]
    refine List.IsPrefix.trans ?_ (ih _ _)
    rw [queryRecord_world]
    obtain ⟨es, hes, _⟩ := QueryDNSWithRetry_trace env domain nameserver
      ((types.get n).getD 0) cfg (now env w).2
    simp only [now] at hes ⊢
    rw [hes]
    exact List.prefix_append _ _

/-- C8: `Nameserver` does not stop at a failure. For every selected record type `t`,
whatever happened for the types before it (`pre`), the executor is invoked for `t`, and
in the returned `Result` (i) if it failed with `e` then `Errors[t]` is `e` and `Records`
has no key `t`, (ii) if it answered a non-empty list then `Records[t]` is that list
mapped through `ParseRecord`, in order, and `Errors` has no key `t`, (iii) if it
answered the empty list then neither map has the key `t`. -/
theorem Nameserver_no_short_circuit (env : Env) (domain nameserver : String) (cfg : Config)
    (w : World) (hord : ∀ l, (env.mapOrder l).Perm l) (pre post : List String) (t : String)
    (hsel : sortedRecordNames env cfg = pre ++ t :: post) :
    ∃ out : Except String (List RR) × World,
      out = QueryDNSWithRetry env domain nameserver ((RecordTypes.get t).getD 0) cfg
        (now env (queryRecords env domain nameserver cfg (recordTypesToQuery env cfg) pre {}
          (now env w).2).2).2 ∧
      out.2.trace <+: (Nameserver env domain nameserver cfg w).2.trace ∧
      (∀ e, out.1 = .error e →
        (Nameserver env domain nameserver cfg w).1.Errors.get t = some e ∧
        (Nameserver env domain nameserver cfg w).1.Records.get t = none) ∧
      (∀ records, out.1 = .ok records → records ≠ [] →
        (Nameserver env domain nameserver cfg w).1.Records.get t
          = some (records.map fun ans => ParseRecord ans t) ∧
        (Nameserver env domain nameserver cfg w).1.Errors.get t = none) ∧
      (out.1 = .ok [] →
        (Nameserver env domain nameserver cfg w).1.Records.get t = none ∧
        (Nameserver env domain nameserver cfg w).1.Errors.get t = none) := by
  refine ⟨_, rfl, ?_⟩
  have hnd := sortedRecordNames_nodup env cfg hord
  rw [hsel] at hnd
  have htpre : t ∉ pre := fun h =>
    (List.nodup_append.mp hnd).2.2 h (List.mem_cons_self _ _) 
  have htpost : t ∉ post := (List.nodup_cons.mp (List.nodup_append.mp hnd).2.1).1
  have htype : (recordTypesToQuery env cfg).get t = RecordTypes.get t := by
    have hk := (mem_sortedRecordNames env cfg hord t).mp (by rw [hsel]; simp)
    rw [GoMap.mem_keys_iff, Option.isSome_iff_exists] at hk
    obtain ⟨v, hv⟩ := hk
    rw [hv, ((recordTypesToQuery_get env cfg t v).mp hv).1]
  -- the state when the turn of `t` comes
  obtain ⟨init, hinit⟩ : ∃ init : Result, init =
      { Nameserver := (Split nameserver ':').headD "", Domain := domain,
        QueryTime := (now env w).1, Records := {}, Errors := {}, Statistics := {} } :=
    ⟨_, rfl⟩
  have hE0 : init.Errors.get t = none := by rw [hinit]; rfl
  have hR0 : init.Records.get t = none := by rw [hinit]; rfl
  obtain ⟨before, hb⟩ : ∃ before, before =
      queryRecords env domain nameserver cfg (recordTypesToQuery env cfg) pre init
        (now env w).2 := ⟨_, rfl⟩
  have hw : (queryRecords env domain nameserver cfg (recordTypesToQuery env cfg) pre {}
      (now env w).2).2 = before.2 := by
    rw [hb]; exact queryRecords_world _ _ _ _ _ _ _ _ _
  have hpre := queryRecords_other_key env domain nameserver cfg (recordTypesToQuery env cfg)
    pre init (now env w).2 t htpre
  rw [← hb] at hpre
  have hfinal : Nameserver env domain nameserver cfg w =
      (withAverage (queryRecords env domain nameserver cfg (recordTypesToQuery env cfg) post
        (queryRecord env domain nameserver cfg (recordTypesToQuery env cfg) t before.1 before.2).1
        (queryRecord env domain nameserver cfg (recordTypesToQuery env cfg) t before.1 before.2).2).1,
       (queryRecords env domain nameserver cfg (recordTypesToQuery env cfg) post
        (queryRecord env domain nameserver cfg (recordTypesToQuery env cfg) t before.1 before.2).1
        (queryRecord env domain nameserver cfg (recordTypesToQuery env cfg) t before.1 before.2).2).2) := by
    unfold Nameserver
    simp only [hsel, queryRecords_append, ← hinit, ← hb, queryRecords]
  have hpost := queryRecords_other_key env domain nameserver cfg (recordTypesToQuery env cfg)
    post
    (queryRecord env domain nameserver cfg (recordTypesToQuery env cfg) t before.1 before.2).1
    (queryRecord env domain nameserver cfg (recordTypesToQuery env cfg) t before.1 before.2).2
    t htpost
  have hEfin : (Nameserver env domain nameserver cfg w).1.Errors.get t =
      (queryRecord env domain nameserver cfg (recordTypesToQuery env cfg) t before.1
        before.2).1.Errors.get t := by
    rw [hfinal]; simp only [(withAverage_fields _).1]; exact hpost.1
  have hRfin : (Nameserver env domain nameserver cfg w).1.Records.get t =
      (queryRecord env domain nameserver cfg (recordTypesToQuery env cfg) t before.1
        before.2).1.Records.get t := by
    rw [hfinal]; simp only [(withAverage_fields _).2.1]; exact hpost.2
  rw [hw, ← htype]
  refine ⟨?_, ?_, ?_, ?_⟩
  · rw [hfinal]
    refine List.IsPrefix.trans ?_ (queryRecords_trace_extends _ _ _ _ _ _ _ _)
    rw [queryRecord_world]
    exact List.prefix_refl _
  · intro e he
    obtain ⟨h1, h2, _⟩ := queryRecord_error env domain nameserver cfg
      (recordTypesToQuery env cfg) t before.1 before.2 e he
    rw [hEfin, hRfin, h1, h2, GoMap.get_set, if_pos rfl, hpre.2, hR0]
    exact ⟨rfl, rfl⟩
  · intro records he hne
    obtain ⟨h1, h2, _⟩ := queryRecord_ok env domain nameserver cfg
      (recordTypesToQuery env cfg) t before.1 before.2 records he
    rw [hEfin, hRfin, h1, h2 t, if_pos ⟨rfl, hne⟩, hpre.1, hE0, hpre.2, hR0]
    exact ⟨by simp, rfl⟩
  · intro he
    obtain ⟨h1, h2, _⟩ := queryRecord_ok env domain nameserver cfg
      (recordTypesToQuery env cfg) t before.1 before.2 [] he
    rw [hEfin, hRfin, h1, h2 t, if_neg (fun c => c.2 rfl), hpre.1, hE0, hpre.2, hR0]
    exact ⟨rfl, rfl⟩


/-! ## Witnesses of the executor and orchestrator theorems -/

theorem QueryDNSWithRetry_always_failing_witness :
    (QueryDNSWithRetry failingEnv "example.com." "8.8.8.8:53" 1
        { Retries := 3, Timeout := 5 } {}).1
      = .error "failed after 3 attempts: boom" ∧
    (QueryDNSWithRetry failingEnv "example.com." "8.8.8.8:53" 1
        { Retries := 3, Timeout := 5 } {}).2.calls = 3 ∧
    (QueryDNSWithRetry failingEnv "example.com." "8.8.8.8:53" 1
        { Retries := 3, Timeout := 5 } {}).2.trace
      = [Event.exec "example.com." "8.8.8.8:53" 1,
         Event.query "example.com." "8.8.8.8:53" 1 5, Event.sleep 1,
         Event.query "example.com." "8.8.8.8:53" 1 5, Event.sleep 2,
         Event.query "example.com." "8.8.8.8:53" 1 5] ∧
    queryCount (attemptEvents "example.com." "8.8.8.8:53" 1 5 3) = 3 ∧
    sleepsOf (attemptEvents "example.com." "8.8.8.8:53" 1 5 3) = [1, 2] ∧
    (attemptEvents "example.com." "8.8.8.8:53" 1 5 3).getLast?
      = some (Event.query "example.com." "8.8.8.8:53" 1 5) :=
  QueryDNSWithRetry_always_failing failingEnv "example.com." "8.8.8.8:53" 1
    { Retries := 3, Timeout := 5 } {} 3 (fun _ => "boom") (by decide) rfl (fun _ => rfl)

theorem QueryDNSWithRetry_succeeds_at_witness :
    (QueryDNSWithRetry flakyEnv "example.com." "8.8.8.8:53" 1
        { Retries := 3, Timeout := 5 } {}).1 = .ok [RR.A 300 "93.184.216.34"] ∧
    (QueryDNSWithRetry flakyEnv "example.com." "8.8.8.8:53" 1
        { Retries := 3, Timeout := 5 } {}).2.calls = 2 ∧
    (QueryDNSWithRetry flakyEnv "example.com." "8.8.8.8:53" 1
        { Retries := 3, Timeout := 5 } {}).2.trace
      = [Event.exec "example.com." "8.8.8.8:53" 1,
         Event.query "example.com." "8.8.8.8:53" 1 5, Event.sleep 1,
         Event.query "example.com." "8.8.8.8:53" 1 5] ∧
    queryCount (attemptEvents "example.com." "8.8.8.8:53" 1 5 2) = 2 ∧
    sleepsOf (attemptEvents "example.com." "8.8.8.8:53" 1 5 2) = [1] ∧
    (attemptEvents "example.com." "8.8.8.8:53" 1 5 2).getLast?
      = some (Event.query "example.com." "8.8.8.8:53" 1 5) :=
  QueryDNSWithRetry_succeeds_at flakyEnv "example.com." "8.8.8.8:53" 1
    { Retries := 3, Timeout := 5 } {} 3 2 [RR.A 300 "93.184.216.34"] (by decide) (by decide) rfl
    (fun i hi => ⟨"exchange failed: i/o timeout", by
      have : i = 0 := by omega
      subst this; rfl⟩)
    rfl


theorem Nameserver_query_order_witness :
    execTypes (Nameserver literalEnv "example.com." "8.8.8.8:53"
      { RecordFilter := ["MX", "A"], Retries := 1, Timeout := 5 } {}).2.trace = [1, 15] :=
  (Nameserver_query_order literalEnv "example.com." "8.8.8.8:53"
    { RecordFilter := ["MX", "A"], Retries := 1, Timeout := 5 } {}
    (fun l => List.reverse_perm l)).2.2.2.2 rfl

theorem Nameserver_selection_witness :
    execTypes (Nameserver literalEnv "example.com." "8.8.8.8:53"
      { RecordFilter := ["mx", "Mx", "a", "bogus"], Retries := 1, Timeout := 5 } {}).2.trace
      = [1, 15] ∧
    (sortedRecordNames literalEnv
      { RecordFilter := ["mx", "Mx", "a", "bogus"], Retries := 1, Timeout := 5 }).Nodup :=
  ⟨(Nameserver_selection literalEnv "example.com." "8.8.8.8:53"
      { RecordFilter := ["mx", "Mx", "a", "bogus"], Retries := 1, Timeout := 5 } {}
      (fun l => List.reverse_perm l)).1,
   (Nameserver_selection literalEnv "example.com." "8.8.8.8:53"
      { RecordFilter := ["mx", "Mx", "a", "bogus"], Retries := 1, Timeout := 5 } {}
      (fun l => List.reverse_perm l)).2.1⟩

theorem Nameserver_statistics_witness :
    (Nameserver literalEnv "example.com." "8.8.8.8:53"
      { RecordFilter := ["A"], Retries := 1, Timeout := 5 } {}).1.Statistics.TotalQueries = 1 ∧
    (Nameserver literalEnv "example.com." "8.8.8.8:53"
      { RecordFilter := ["A"], Retries := 1, Timeout := 5 } {}).1.Statistics.SuccessfulQueries
    + (Nameserver literalEnv "example.com." "8.8.8.8:53"
      { RecordFilter := ["A"], Retries := 1, Timeout := 5 } {}).1.Statistics.FailedQueries = 1 :=
  (Nameserver_statistics literalEnv "example.com." "8.8.8.8:53"
    { RecordFilter := ["A"], Retries := 1, Timeout := 5 } {}
    (fun l => List.reverse_perm l)).2.2.2.2.2 rfl rfl

theorem Nameserver_no_short_circuit_witness :
    (Nameserver literalEnv "example.com." "8.8.8.8:53"
      { RecordFilter := ["MX", "A"], Retries := 1, Timeout := 5 } {}).1.Records.get "A"
      = some [ParseRecord (RR.A 300 "93.184.216.34") "A"] ∧
    (Nameserver literalEnv "example.com." "8.8.8.8:53"
      { RecordFilter := ["MX", "A"], Retries := 1, Timeout := 5 } {}).1.Errors.get "A" = none := by
  obtain ⟨out, hout, -, -, hok, -⟩ := Nameserver_no_short_circuit literalEnv "example.com."
    "8.8.8.8:53" { RecordFilter := ["MX", "A"], Retries := 1, Timeout := 5 } {}
    (fun l => List.reverse_perm l) [] ["MX"] "A" (by decide)
  exact hok [RR.A 300 "93.184.216.34"] (by rw [hout]; rfl) (by simp)

/-! ## `IsValidDomain` -/

theorem partsOk_iff (parts : List String) :
    partsOk parts = true ↔ ∀ p ∈ parts, 1 ≤ len p ∧ len p ≤ 63 := by
  induction parts with
  | nil => simp [partsOk]
  | cons p rest ih =>
    unfold partsOk
    by_cases h : len p = 0 ∨ len p > 63
    · simp only [h, if_true, List.mem_cons, forall_eq_or_imp]
      constructor
      · intro hf; exact absurd hf (by simp)
      · intro hf; omega
    · simp only [h, if_false, ih, List.mem_cons, forall_eq_or_imp]
      constructor
      · intro hf; exact ⟨by omega, hf⟩
      · intro hf; exact hf.2

/-- What `IsValidDomain` accepts: at most 253 bytes and at least one, measured with the
trailing dot if there is one, and, once a trailing dot is removed, at least two labels,
each of 1 to 63 bytes. -/
theorem IsValidDomain_iff (domain : String) :
    IsValidDomain domain = true ↔
      1 ≤ len domain ∧ len domain ≤ 253 ∧
      2 ≤ (Split (TrimSuffix domain ".") '.').length ∧
      ∀ p ∈ Split (TrimSuffix domain ".") '.', 1 ≤ len p ∧ len p ≤ 63 := by
  unfold IsValidDomain
  by_cases h : len domain = 0 ∨ len domain > 253
  · simp only [h, if_true]
    constructor
    · intro hf; exact absurd hf (by simp)
    · intro hf; omega
  · simp only [h, if_false]
    by_cases h2 : (Split (TrimSuffix domain ".") '.').length < 2
    · simp only [h2, if_true]
      constructor
      · intro hf; exact absurd hf (by simp)
      · intro hf; omega
    · simp only [h2, if_false, partsOk_iff]
      constructor
      · intro hf; exact ⟨by omega, by omega, by omega, hf⟩
      · intro hf; exact hf.2.2.2

/-- C1: a name of exactly 253 characters, in labels of 63, 63, 63 and 61 characters, is
accepted by `IsValidDomain` as it stands and rejected once its trailing dot is written:
the length is tested before the dot is removed. -/
theorem IsValidDomain_rejects_253_with_trailing_dot :
    len (TrimSuffix name253dot ".") = 253 ∧
    (Split (TrimSuffix name253dot ".") '.').map len = [63, 63, 63, 61] ∧
    IsValidDomain name253 = true ∧
    IsValidDomain name253dot = false := by
  decide

/-! ## `PrepareNameservers` -/

/-- C9: for the input `8.8.8.8:`, which has a colon and no port, `PrepareNameservers`
outputs the entry `8.8.8.8:`, whose port is empty. -/
theorem PrepareNameservers_empty_port (env : Env) (h : env.parseIP "8.8.8.8" = true) :
    SplitHostPort "8.8.8.8:" = .ok ("8.8.8.8", "") ∧
    PrepareNameservers env ["8.8.8.8:"] = ["8.8.8.8:"] := by
  refine ⟨rfl, ?_⟩
  have hs : SplitHostPort "8.8.8.8:" = .ok ("8.8.8.8", "") := rfl
  have h1 : HasPrefix "8.8.8.8:" "-" = false := by decide
  have h2 : Contains "8.8.8.8:" ':' = true := by decide
  simp only [PrepareNameservers, prepareLoop, h1, h2, Bool.not_true, Bool.false_eq_true,
    if_false, hs, h, Bool.false_and]
  rfl

theorem PrepareNameservers_empty_port_witness :
    SplitHostPort "8.8.8.8:" = .ok ("8.8.8.8", "") ∧
    PrepareNameservers literalEnv ["8.8.8.8:"] = ["8.8.8.8:"] :=
  PrepareNameservers_empty_port literalEnv (by decide)

/-- C10: for the input `[::1]:53` `PrepareNameservers` outputs `::1:53`, which the
host:port split rejects, so that preparing the output again gives the empty list. -/
theorem PrepareNameservers_ipv6_not_idempotent (env : Env) (h : env.parseIP "::1" = true) :
    PrepareNameservers env ["[::1]:53"] = ["::1:53"] ∧
    SplitHostPort "::1:53" = .error "too many colons in address" ∧
    PrepareNameservers env (PrepareNameservers env ["[::1]:53"]) = [] := by
  have hs : SplitHostPort "[::1]:53" = .ok ("::1", "53") := rfl
  have h1 : HasPrefix "[::1]:53" "-" = false := by decide
  have h2 : Contains "[::1]:53" ':' = true := by decide
  have hp : PrepareNameservers env ["[::1]:53"] = ["::1:53"] := by
    simp only [PrepareNameservers, prepareLoop, h1, h2, Bool.not_true, Bool.false_eq_true,
      if_false, hs, h, Bool.false_and]
    rfl
  refine ⟨hp, rfl, ?_⟩
  rw [hp]
  rfl

theorem PrepareNameservers_ipv6_not_idempotent_witness :
    PrepareNameservers literalEnv ["[::1]:53"] = ["::1:53"] ∧
    SplitHostPort "::1:53" = .error "too many colons in address" ∧
    PrepareNameservers literalEnv (PrepareNameservers literalEnv ["[::1]:53"]) = [] :=
  PrepareNameservers_ipv6_not_idempotent literalEnv (by decide)


/-! ### Entries switched off with a leading `-` -/

theorem prepareLoop_skips_dash (env : Env) (nameservers prepared : List String) :
    prepareLoop env nameservers prepared =
      prepareLoop env (nameservers.filter fun ns => !HasPrefix ns "-") prepared := by
  induction nameservers generalizing prepared with
  | nil => rfl
  | cons ns rest ih =>
    by_cases h : HasPrefix ns "-" = true
    · simp only [List.filter, h, Bool.not_true]
      rw [← ih]
      simp [prepareLoop, h]
    · have h' : HasPrefix ns "-" = false := by simpa using h
      simp only [List.filter, h', Bool.not_false, prepareLoop, Bool.false_eq_true, if_false]
      split
      · exact ih _
      · split
        · exact ih _
        · exact ih _

/-- The entries that begin with `-` contribute nothing to the output. -/
theorem PrepareNameservers_skips_dash (env : Env) (nameservers : List String) :
    PrepareNameservers env nameservers =
      PrepareNameservers env (nameservers.filter fun ns => !HasPrefix ns "-") :=
  prepareLoop_skips_dash env nameservers []


/-! ## The task registry -/

theorem TaskManager.GetTask_AddTask (tm : TaskManager) (task : BackgroundTask) (id : String) :
    (tm.AddTask task).GetTask id = if id = task.ID then some task else tm.GetTask id := by
  simp [TaskManager.GetTask, TaskManager.AddTask, GoMap.get_set]

/-- After a sequence of `AddTask` calls, a lookup finds the last task added under the
id, and otherwise what the registry held before. -/
theorem GetTask_foldl_AddTask (adds : List BackgroundTask) (tm : TaskManager) (id : String) :
    (adds.foldl TaskManager.AddTask tm).GetTask id =
      ((adds.filter fun t => t.ID = id).getLast?).or (tm.GetTask id) := by
  induction adds generalizing tm with
  | nil => simp
  | cons a rest ih =>
    rw [List.foldl_cons, ih, TaskManager.GetTask_AddTask]
    by_cases h : a.ID = id
    · subst h
      simp only [List.filter_cons, decide_True, if_true, List.getLast?_cons]
      cases (List.filter (fun t => decide (t.ID = a.ID)) rest).getLast? <;> simp
    · have h' : ¬ id = a.ID := fun e => h e.symm
      simp [List.filter_cons, h, h']

theorem registryOf_nodup (adds : List BackgroundTask) (tm : TaskManager)
    (h : tm.tasks.keys.Nodup) : (adds.foldl TaskManager.AddTask tm).tasks.keys.Nodup := by
  induction adds generalizing tm with
  | nil => exact h
  | cons a rest ih => exact ih _ (GoMap.nodup_keys_set tm.tasks a.ID a h)

/-- C12: starting from the empty registry, after any sequence of `AddTask` calls
`GetTask id` finds a task exactly when some call carried that id, and the task found is
the one of the last such call; an entry, once there, stays under later calls; for an id
never added nothing is found, and the task endpoint answers 404 "Task not found". -/
theorem registry_GetTask_after_adds (adds : List BackgroundTask) (id : String) :
    (((registryOf adds).GetTask id).isSome = true ↔ ∃ t ∈ adds, t.ID = id) ∧
    (registryOf adds).GetTask id = (adds.filter fun t => t.ID = id).getLast? ∧
    (∀ more : List BackgroundTask, ((registryOf adds).GetTask id).isSome = true →
      ((registryOf (adds ++ more)).GetTask id).isSome = true) ∧
    ((∀ t ∈ adds, t.ID ≠ id) →
      (registryOf adds).GetTask id = none ∧
      GetTaskEndpoint (registryOf adds) id = (404, Body.error "Task not found")) := by
  have hget : (registryOf adds).GetTask id = (adds.filter fun t => t.ID = id).getLast? := by
    have hempty : ({} : TaskManager).GetTask id = none := rfl
    rw [registryOf, GetTask_foldl_AddTask, hempty]
    simp
  have hfound : ((registryOf adds).GetTask id).isSome = true ↔ ∃ t ∈ adds, t.ID = id := by
    rw [hget]
    constructor
    · intro h
      obtain ⟨t, ht⟩ := Option.isSome_iff_exists.mp h
      have hm := List.mem_of_getLast?_eq_some ht
      rw [List.mem_filter] at hm
      exact ⟨t, hm.1, by simpa using hm.2⟩
    · rintro ⟨t, ht, hid⟩
      have hne : (adds.filter fun t => t.ID = id) ≠ [] := by
        intro hnil
        have := List.filter_eq_nil_iff.mp hnil t ht
        simp [hid] at this
      cases hl : (adds.filter fun t => t.ID = id).getLast? with
      | none => exact absurd (List.getLast?_eq_none_iff.mp hl) hne
      | some x => rfl
  refine ⟨hfound, hget, ?_, ?_⟩
  · intro more h
    have : (registryOf (adds ++ more)).GetTask id =
        ((more.filter fun t => t.ID = id).getLast?).or ((registryOf adds).GetTask id) := by
      rw [registryOf, List.foldl_append, GetTask_foldl_AddTask]
      rfl
    rw [this]
    obtain ⟨t, ht⟩ := Option.isSome_iff_exists.mp h
    rw [ht]
    cases (more.filter fun t => t.ID = id).getLast? <;> simp
  · intro hnone
    have hn : (registryOf adds).GetTask id = none := by
      cases hg : (registryOf adds).GetTask id with
      | none => rfl
      | some t =>
        obtain ⟨t', ht', hid⟩ := hfound.mp (by rw [hg]; rfl)
        exact absurd hid (hnone t' ht')
    exact ⟨hn, by simp [GetTaskEndpoint, hn]⟩


theorem getTasksLoop_eq (tm : TaskManager) (status : String) (keys : List String)
    (tasks : List BackgroundTask) :
    getTasksLoop tm status keys tasks =
      tasks ++ (keys.filterMap tm.tasks.get).filter
        fun t => decide (status = "" ∨ t.Status = status) := by
  induction keys generalizing tasks with
  | nil => simp [getTasksLoop]
  | cons k rest ih =>
    unfold getTasksLoop
    cases hk : tm.tasks.get k with
    | none => simp [ih, List.filterMap_cons, hk]
    | some t =>
      by_cases hp : status = "" ∨ t.Status = status
      · simp [ih, List.filterMap_cons, hk, hp, List.filter_cons]
      · simp [ih, List.filterMap_cons, hk, hp, List.filter_cons]

/-- With distinct keys, looking each key up gives the values of the entries, in order. -/
theorem filterMap_lookup_keys {α : Type} (l : List (String × α))
    (h : (l.map Prod.fst).Nodup) :
    (l.map Prod.fst).filterMap (fun k => l.lookup k) = l.map Prod.snd := by
  induction l with
  | nil => rfl
  | cons p rest ih =>
    obtain ⟨a, b⟩ := p
    have hnd := List.nodup_cons.mp h
    simp only [List.map_cons, List.filterMap_cons, lookup_cons_eq, if_true]
    congr 1
    rw [← ih hnd.2]
    apply List.filterMap_congr
    intro k hk
    have : k ≠ a := fun e => hnd.1 (e ▸ hk)
    simp [this]

/-- C13: `GetTasks s` returns, up to order, exactly the registered tasks whose `Status`
is `s`, each once, when `s` is not empty, and all registered tasks, each once, when `s`
is empty; the registry is the same after the call. -/
theorem GetTasks_spec (env : Env) (tm : TaskManager) (status : String)
    (hord : ∀ l, (env.mapOrder l).Perm l) (hkeys : tm.tasks.keys.Nodup) :
    (status ≠ "" →
      (tm.GetTasks env status).1.Perm
        ((tm.tasks.entries.map Prod.snd).filter fun t => decide (t.Status = status))) ∧
    (status = "" → (tm.GetTasks env status).1.Perm (tm.tasks.entries.map Prod.snd)) ∧
    (tm.GetTasks env status).2 = tm := by
  have hall : (tm.GetTasks env status).1.Perm
      ((tm.tasks.entries.map Prod.snd).filter
        fun t => decide (status = "" ∨ t.Status = status)) := by
    simp only [TaskManager.GetTasks, getTasksLoop_eq, List.nil_append]
    apply List.Perm.filter
    have h1 := List.Perm.filterMap tm.tasks.get (hord tm.tasks.keys)
    have h2 : tm.tasks.keys.filterMap tm.tasks.get = tm.tasks.entries.map Prod.snd :=
      filterMap_lookup_keys tm.tasks.entries hkeys
    rw [h2] at h1
    exact h1
  refine ⟨?_, ?_, rfl⟩
  · intro hne
    simpa [hne] using hall
  · intro he
    simpa [he] using hall

theorem GetTasks_spec_witness :
    (pendingState.manager.GetTasks literalEnv "pending").1.Perm
      ((pendingState.manager.tasks.entries.map Prod.snd).filter
        fun t => decide (t.Status = "pending")) ∧
    (pendingState.manager.GetTasks literalEnv "pending").2 = pendingState.manager :=
  ⟨(GetTasks_spec literalEnv pendingState.manager "pending"
      (fun l => List.reverse_perm l) (by decide)).1 (by decide),
   (GetTasks_spec literalEnv pendingState.manager "pending"
      (fun l => List.reverse_perm l) (by decide)).2.2⟩


/-! ## The background runner -/

theorem TaskState.update_eq (st : TaskState) (taskID : String)
    (f : BackgroundTask → BackgroundTask) (task : BackgroundTask)
    (h : st.manager.tasks.get taskID = some task) :
    st.update taskID f =
      { st with manager := { tasks := st.manager.tasks.set taskID (f task) } } := by
  simp [TaskState.update, h]

/-- C14: for a task registered under `taskID`, if `IsValidDomain` rejects the request
domain the runner ends with the task `failed` and `Error` "Invalid domain", and if the
domain is valid but `PrepareNameservers` returns the empty list it ends with `failed` and
"No valid nameservers provided"; in both cases the trace gains no event (no DNS query),
no file is written and `Results` is what it was. -/
theorem ProcessBackgroundTask_rejects (env : Env) (fs : FileSys) (taskID : String)
    (req : QueryRequest) (st : TaskState) (task : BackgroundTask)
    (hreg : st.manager.GetTask taskID = some task) :
    (IsValidDomain req.Domain = false →
      ∃ st', ProcessBackgroundTask env fs taskID req st = some st' ∧
        st'.manager.GetTask taskID = some
          { task with Status := "failed", Error := "Invalid domain",
                      CompletedAt := some (env.clock st.world.reads) } ∧
        st'.world.trace = st.world.trace ∧ st'.world.calls = st.world.calls ∧
        st'.files = st.files ∧ st'.saves = st.saves) ∧
    (IsValidDomain req.Domain = true → PrepareNameservers env req.Nameservers = [] →
      ∃ st', ProcessBackgroundTask env fs taskID req st = some st' ∧
        st'.manager.GetTask taskID = some
          { task with Status := "failed", Error := "No valid nameservers provided",
                      CompletedAt := some (env.clock st.world.reads) } ∧
        st'.world.trace = st.world.trace ∧ st'.world.calls = st.world.calls ∧
        st'.files = st.files ∧ st'.saves = st.saves) := by
  have hget : st.manager.tasks.get taskID = some task := hreg
  constructor
  · intro hdom
    refine ⟨_, by simp only [ProcessBackgroundTask, hget]; rfl, ?_⟩
    simp [runTask, hdom, TaskState.update, hget, GoMap.get_set, now, TaskManager.GetTask]
  · intro hdom hns
    refine ⟨_, by simp only [ProcessBackgroundTask, hget]; rfl, ?_⟩
    simp [runTask, hdom, hns, TaskState.update, hget, GoMap.get_set, now, TaskManager.GetTask]


theorem ProcessBackgroundTask_rejects_witness :
    ∃ st', ProcessBackgroundTask literalEnv goodDisk "task_1"
        { exampleRequest with Domain := "com" } pendingState = some st' ∧
      st'.manager.GetTask "task_1" = some
        { pendingTask with Status := "failed", Error := "Invalid domain",
                           CompletedAt := some 0 } ∧
      st'.world.trace = [] ∧ st'.world.calls = 0 ∧ st'.files = [] ∧ st'.saves = 0 :=
  (ProcessBackgroundTask_rejects literalEnv goodDisk "task_1"
    { exampleRequest with Domain := "com" } pendingState pendingTask rfl).1 (by decide)

theorem queryNameservers_length (env : Env) (domain : String) (cfg : Config)
    (nameservers : List String) (results : List Result) (w : World) :
    (queryNameservers env domain cfg nameservers results w).1.length
      = results.length + nameservers.length := by
  induction nameservers generalizing results w with
  | nil => simp [queryNameservers]
  | cons ns rest ih =>
    simp only [queryNameservers, ih, List.length_append, List.length_cons, List.length_nil]
    omega

/-- The task `BackgroundQueryEndpoint` registers is pending, without results, error or
completion time. -/
theorem BackgroundQueryEndpoint_registers (env : Env) (req : QueryRequest) (st : TaskState) :
    ∃ t, (BackgroundQueryEndpoint env req st).2.2.manager.GetTask
        (BackgroundQueryEndpoint env req st).2.1 = some t ∧
      t.Status = "pending" ∧ t.Results = [] ∧ t.Error = "" ∧ t.CompletedAt = none := by
  simp [BackgroundQueryEndpoint, TaskManager.GetTask_AddTask]

theorem TaskState.update_get (st : TaskState) (taskID : String)
    (f : BackgroundTask → BackgroundTask) (task : BackgroundTask)
    (h : st.manager.tasks.get taskID = some task) :
    (st.update taskID f).manager.tasks.get taskID = some (f task) := by
  simp [TaskState.update, h, GoMap.get_set]

/-- The task after the body of the runner: failed with one of the three messages and
the results it had, or completed with new results and the error it had. -/
theorem runTask_task (env : Env) (fs : FileSys) (taskID : String) (req : QueryRequest)
    (st : TaskState) (t0 : BackgroundTask) (h : st.manager.tasks.get taskID = some t0) :
    ∃ t1, (runTask env fs taskID req st).manager.tasks.get taskID = some t1 ∧
      t1.CompletedAt = t0.CompletedAt ∧
      ((t1.Status = "failed" ∧ t1.Error ≠ "" ∧ t1.Results = t0.Results) ∨
       (t1.Status = "completed" ∧ t1.Results ≠ [] ∧ t1.Error = t0.Error)) := by
  unfold runTask
  by_cases hdom : IsValidDomain req.Domain = true
  · by_cases hns : (PrepareNameservers env req.Nameservers).length = 0
    · simp only [hdom, hns, Bool.not_true, Bool.false_eq_true, if_false, if_true]
      exact ⟨_, TaskState.update_get st taskID _ t0 h, rfl, Or.inl ⟨rfl, by simp, rfl⟩⟩
    · simp only [hdom, hns, Bool.not_true, Bool.false_eq_true, if_false]
      cases hsave : fs.save st.saves
          (queryNameservers env req.Domain (requestConfig req)
            (PrepareNameservers env req.Nameservers) [] st.world).1
          ("dns_results_" ++ ReplaceAll req.Domain '.' '_' ++ "_"
            ++ toString ((now env (queryNameservers env req.Domain (requestConfig req)
              (PrepareNameservers env req.Nameservers) [] st.world).2).1 / Second)
            ++ ".json") with
      | some err =>
        simp only [saveResultsToFile, hsave]
        exact ⟨_, TaskState.update_get _ taskID _ t0 h, rfl, Or.inl ⟨rfl, by simp, rfl⟩⟩
      | none =>
        simp only [saveResultsToFile, hsave]
        refine ⟨_, TaskState.update_get _ taskID _ t0 h, rfl, Or.inr ⟨rfl, ?_, rfl⟩⟩
        intro hnil
        have hnil' : (queryNameservers env req.Domain (requestConfig req)
            (PrepareNameservers env req.Nameservers) [] st.world).1 = [] := hnil
        have hlen := queryNameservers_length env req.Domain (requestConfig req)
          (PrepareNameservers env req.Nameservers) [] st.world
        rw [hnil'] at hlen
        simp only [List.length_nil, Nat.zero_add] at hlen
        exact hns hlen.symm
  · have hdom' : IsValidDomain req.Domain = false := by simpa using hdom
    simp only [hdom', Bool.not_false, if_true]
    exact ⟨_, TaskState.update_get st taskID _ t0 h, rfl, Or.inl ⟨rfl, by simp, rfl⟩⟩

/-- A registered task without results and error ends in a terminal state: the runner
returns, `CompletedAt` is set, and the task is completed with results and no error, or
failed with an error and no results. -/
theorem runner_terminal_of_fresh (env : Env) (fs : FileSys) (taskID : String)
    (req : QueryRequest) (st : TaskState) (task : BackgroundTask)
    (hreg : st.manager.GetTask taskID = some task) (hpending : task.Status = "pending")
    (hres : task.Results = []) (herr : task.Error = "") :
    ∃ st' t', ProcessBackgroundTask env fs taskID req st = some st' ∧
      st'.manager.GetTask taskID = some t' ∧ TerminalTask t' ∧
      t'.Status ≠ task.Status ∧ t'.Status ≠ "running" := by
  have hget : st.manager.tasks.get taskID = some task := hreg
  have h1 := TaskState.update_get st taskID (fun task => { task with Status := "running" })
    task hget
  obtain ⟨t1, ht1, _, hcase⟩ := runTask_task env fs taskID req _ _ h1
  refine ⟨_,
    { t1 with CompletedAt := some (now env (runTask env fs taskID req
        (st.update taskID fun task => { task with Status := "running" })).world).1 },
    by simp only [ProcessBackgroundTask, hget]; rfl, ?_, ?_⟩
  · exact TaskState.update_get _ taskID _ t1 ht1
  · rcases hcase with ⟨hs, he, hr⟩ | ⟨hs, hr, he⟩
    · refine ⟨⟨rfl, Or.inr ⟨hs, he, ?_⟩⟩, ?_, ?_⟩
      · rw [show ({ t1 with CompletedAt := _ } : BackgroundTask).Results = t1.Results from rfl,
          hr]
        exact hres
      · simp [hs, hpending]
      · simp [hs]
    · refine ⟨⟨rfl, Or.inl ⟨hs, hr, ?_⟩⟩, ?_, ?_⟩
      · rw [show ({ t1 with CompletedAt := _ } : BackgroundTask).Error = t1.Error from rfl,
          he]
        exact herr
      · simp [hs, hpending]
      · simp [hs]


/-! ## The synchronous endpoint and the background runner -/

/-- C15: for the request for `example.com` (no trailing dot), one nameserver and the
filter `["A"]`, with the same DNS client and host lookup, the synchronous endpoint
returns a result whose `Domain` is `example.com.`, the name made fully qualified, and
the background runner attaches a result whose `Domain` is `example.com`: the runner does
not call `Fqdn`. -/
theorem background_runner_skips_Fqdn :
    (∃ rs w, QueryEndpoint literalEnv exampleRequest {} = ((200, Body.results rs), w) ∧
      rs.map (fun r => r.Domain) = ["example.com."] ∧
      rs.map (fun r => r.Nameserver) = ["8.8.8.8"]) ∧
    (∃ st' t', ProcessBackgroundTask literalEnv goodDisk "task_1" exampleRequest pendingState
        = some st' ∧
      st'.manager.GetTask "task_1" = some t' ∧ t'.Status = "completed" ∧
      t'.Results.map (fun r => r.Domain) = ["example.com"] ∧
      t'.Results.map (fun r => r.Nameserver) = ["8.8.8.8"]) := by
  exact ⟨⟨_, _, rfl, rfl, rfl⟩, ⟨_, _, rfl, rfl, rfl, rfl, rfl⟩⟩


/-! ### The `Domain` field of the results, and the keys of the registry -/

theorem queryRecord_Domain (env : Env) (domain nameserver : String) (cfg : Config)
    (types : GoMap Nat) (recordName : String) (result : Result) (w : World) :
    (queryRecord env domain nameserver cfg types recordName result w).1.Domain
      = result.Domain := by
  unfold queryRecord
  simp only
  split
  · rfl
  · split
    · rfl
    · exact (appendRecords_fields _ _ _).2.2.2.1

theorem queryRecords_Domain (env : Env) (domain nameserver : String) (cfg : Config)
    (types : GoMap Nat) (names : List String) (result : Result) (w : World) :
    (queryRecords env domain nameserver cfg types names result w).1.Domain
      = result.Domain := by
  induction names generalizing result w with
  | nil => rfl
  | cons n rest ih =>
    simp only [queryRecords]
    rw [ih, queryRecord_Domain]

/-- The result of `Nameserver` carries the domain the caller passed. -/
theorem Nameserver_Domain (env : Env) (domain nameserver : String) (cfg : Config)
    (w : World) : (Nameserver env domain nameserver cfg w).1.Domain = domain := by
  unfold Nameserver withAverage
  simp only
  split
  · exact queryRecords_Domain _ _ _ _ _ _ _ _
  · exact queryRecords_Domain _ _ _ _ _ _ _ _

theorem queryNameservers_Domain (env : Env) (domain : String) (cfg : Config)
    (nameservers : List String) (results : List Result) (w : World)
    (h : ∀ r ∈ results, r.Domain = domain) :
    ∀ r ∈ (queryNameservers env domain cfg nameservers results w).1, r.Domain = domain := by
  induction nameservers generalizing results w with
  | nil => simpa [queryNameservers] using h
  | cons ns rest ih =>
    simp only [queryNameservers]
    apply ih
    intro r hr
    rcases List.mem_append.mp hr with hr | hr
    · exact h r hr
    · rw [List.mem_singleton.mp hr]
      exact Nameserver_Domain env domain ns cfg w

/-- Every result the synchronous endpoint returns carries `Fqdn req.Domain`. -/
theorem QueryEndpoint_Domain (env : Env) (req : QueryRequest) (w : World)
    (rs : List Result) (code : Nat)
    (h : (QueryEndpoint env req w).1 = (code, Body.results rs)) :
    ∀ r ∈ rs, r.Domain = Fqdn req.Domain := by
  unfold QueryEndpoint at h
  simp only at h
  split at h
  · simp at h
  · split at h
    · simp at h
    · simp only [Prod.mk.injEq, Body.results.injEq] at h
      rw [← h.2]
      exact queryNameservers_Domain env _ _ _ [] w (by simp)

theorem saveResultsToFile_manager (fs : FileSys) (results : List Result) (filename : String)
    (st : TaskState) : (saveResultsToFile fs results filename st).2.manager = st.manager := by
  unfold saveResultsToFile
  split <;> rfl

/-- Every result of a task the runner completed carries `req.Domain` as it came. -/
theorem runTask_Domain (env : Env) (fs : FileSys) (taskID : String) (req : QueryRequest)
    (st : TaskState) (t0 t1 : BackgroundTask)
    (h0 : st.manager.tasks.get taskID = some t0)
    (h1 : (runTask env fs taskID req st).manager.tasks.get taskID = some t1)
    (hc : t1.Status = "completed") :
    ∀ r ∈ t1.Results, r.Domain = req.Domain := by
  unfold runTask at h1
  simp only at h1
  split at h1
  · rw [TaskState.update_get st taskID _ t0 h0] at h1
    rw [← Option.some.inj h1] at hc
    simp at hc
  · split at h1
    · rw [TaskState.update_get st taskID _ t0 h0] at h1
      rw [← Option.some.inj h1] at hc
      simp at hc
    · split at h1
      · rw [TaskState.update_get _ taskID _ t0 (by
            rw [saveResultsToFile_manager]; exact h0)] at h1
        rw [← Option.some.inj h1] at hc
        simp at hc
      · rw [TaskState.update_get _ taskID _ t0 (by
            rw [saveResultsToFile_manager]; exact h0)] at h1
        rw [← Option.some.inj h1]
        exact queryNameservers_Domain env _ _ _ [] st.world (by simp)

theorem TaskState.update_keys (st : TaskState) (taskID : String)
    (f : BackgroundTask → BackgroundTask) :
    (st.update taskID f).manager.tasks.keys = st.manager.tasks.keys := by
  unfold TaskState.update
  cases h : st.manager.tasks.get taskID with
  | none => rfl
  | some t =>
    have hk : taskID ∈ st.manager.tasks.keys := by
      rw [GoMap.mem_keys_iff, h]; rfl
    simp only [GoMap.keys_set, hk, if_true]


/-! ### The invariant of the registry and the lifecycle of a task -/

theorem PendingFresh_empty : PendingFresh {} := by
  intro id t h
  exact absurd h (by simp [TaskManager.GetTask, GoMap.get])

/-- The registration of a new task by the handler keeps the invariant. -/
theorem PendingFresh_BackgroundQueryEndpoint (env : Env) (req : QueryRequest)
    (st : TaskState) (h : PendingFresh st.manager) :
    PendingFresh (BackgroundQueryEndpoint env req st).2.2.manager := by
  intro id t hget hp
  simp only [BackgroundQueryEndpoint, TaskManager.GetTask_AddTask] at hget
  split at hget
  · rw [← Option.some.inj hget]
    exact ⟨rfl, rfl⟩
  · exact h id t hget hp

theorem TaskState.update_get_other (st : TaskState) (taskID id : String)
    (f : BackgroundTask → BackgroundTask) (hne : id ≠ taskID) :
    (st.update taskID f).manager.tasks.get id = st.manager.tasks.get id := by
  unfold TaskState.update
  cases h : st.manager.tasks.get taskID with
  | none => rfl
  | some t => simp [GoMap.get_set, hne]

/-- The body of the runner writes to no task but its own. -/
theorem runTask_get_other (env : Env) (fs : FileSys) (taskID id : String)
    (req : QueryRequest) (st : TaskState) (hne : id ≠ taskID) :
    (runTask env fs taskID req st).manager.tasks.get id = st.manager.tasks.get id := by
  unfold runTask
  simp only
  split
  · exact TaskState.update_get_other st taskID id _ hne
  · split
    · exact TaskState.update_get_other st taskID id _ hne
    · split
      · rw [TaskState.update_get_other _ taskID id _ hne, saveResultsToFile_manager]
      · rw [TaskState.update_get_other _ taskID id _ hne, saveResultsToFile_manager]

/-- A run of the background runner keeps the invariant: its own task ends completed or
failed, and the other tasks are as they were. -/
theorem PendingFresh_ProcessBackgroundTask (env : Env) (fs : FileSys) (taskID : String)
    (req : QueryRequest) (st st' : TaskState) (h : PendingFresh st.manager)
    (hrun : ProcessBackgroundTask env fs taskID req st = some st') :
    PendingFresh st'.manager := by
  unfold ProcessBackgroundTask at hrun
  cases hget : st.manager.tasks.get taskID with
  | none => simp [hget] at hrun
  | some task =>
    simp only [hget, Option.some.injEq] at hrun
    have h1 := TaskState.update_get st taskID (fun task => { task with Status := "running" })
      task hget
    obtain ⟨t1, ht1, _, hcase⟩ := runTask_task env fs taskID req _ _ h1
    intro id t hid hp
    rw [← hrun] at hid
    by_cases hne : id = taskID
    · subst hne
      have hfin := TaskState.update_get
        ({ runTask env fs id req
            (st.update id fun task => { task with Status := "running" }) with
          world := (now env (runTask env fs id req
            (st.update id fun task => { task with Status := "running" })).world).2 } :
          TaskState)
        id (fun task => { task with CompletedAt := some (now env (runTask env fs id req
            (st.update id fun task => { task with Status := "running" })).world).1 })
        t1 ht1
      have hid' : some _ = some t := hfin.symm.trans hid
      rw [← Option.some.inj hid'] at hp
      have hp' : t1.Status = "pending" := hp
      rcases hcase with ⟨hs, _, _⟩ | ⟨hs, _, _⟩
      · rw [hs] at hp'; exact absurd hp' (by decide)
      · rw [hs] at hp'; exact absurd hp' (by decide)
    · have hid' : st.manager.tasks.get id = some t := by
        have e1 := TaskState.update_get_other
          ({ runTask env fs taskID req
              (st.update taskID fun task => { task with Status := "running" }) with
            world := (now env (runTask env fs taskID req
              (st.update taskID fun task => { task with Status := "running" })).world).2 } :
            TaskState)
          taskID id (fun task => { task with CompletedAt := some (now env (runTask env fs
            taskID req
            (st.update taskID fun task => { task with Status := "running" })).world).1 })
          hne
        have e2 := runTask_get_other env fs taskID id req
          (st.update taskID fun task => { task with Status := "running" }) hne
        have e3 := TaskState.update_get_other st taskID id
          (fun task => { task with Status := "running" }) hne
        rw [← e3, ← e2]
        exact e1.symm.trans hid
      exact h id t hid' hp

/-- The task the handler has just registered ends in a terminal state when the runner
is started on it, whatever the registry held before. -/
theorem registered_task_terminal (env : Env) (fs : FileSys) (req req' : QueryRequest)
    (st : TaskState) :
    ∃ st' t', ProcessBackgroundTask env fs (BackgroundQueryEndpoint env req st).2.1 req'
        (BackgroundQueryEndpoint env req st).2.2 = some st' ∧
      st'.manager.GetTask (BackgroundQueryEndpoint env req st).2.1 = some t' ∧
      TerminalTask t' := by
  obtain ⟨t, hget, hp, hr, he, _⟩ := BackgroundQueryEndpoint_registers env req st
  obtain ⟨st', t', h1, h2, h3, _⟩ :=
    runner_terminal_of_fresh env fs _ req' _ t hget hp hr he
  exact ⟨st', t', h1, h2, h3⟩

/-- C11: in a state of the program (one whose registry satisfies `PendingFresh`, as the
empty registry does and as the handler and the runner keep it), if a task in status
`pending` is registered under the id given to `ProcessBackgroundTask`, then the runner
returns, and the task `GetTask` finds afterwards has `CompletedAt` set and is either
`completed` with a non-empty `Results` and an empty `Error`, or `failed` with a non-empty
`Error` and an empty `Results`, for every request, DNS client and outcome of the file
write; it is not left pending or running. -/
theorem ProcessBackgroundTask_terminal (env : Env) (fs : FileSys) (taskID : String)
    (req : QueryRequest) (st : TaskState) (task : BackgroundTask)
    (hinv : PendingFresh st.manager)
    (hreg : st.manager.GetTask taskID = some task) (hpending : task.Status = "pending") :
    ∃ st' t', ProcessBackgroundTask env fs taskID req st = some st' ∧
      st'.manager.GetTask taskID = some t' ∧ TerminalTask t' ∧
      t'.Status ≠ "pending" ∧ t'.Status ≠ "running" := by
  obtain ⟨hres, herr⟩ := hinv taskID task hreg hpending
  obtain ⟨st', t', h1, h2, h3, h4, h5⟩ :=
    runner_terminal_of_fresh env fs taskID req st task hreg hpending hres herr
  exact ⟨st', t', h1, h2, h3, by rw [← hpending]; exact h4, h5⟩

theorem ProcessBackgroundTask_terminal_witness :
    ∃ st' t', ProcessBackgroundTask literalEnv fullDisk "task_0" exampleRequest
        (BackgroundQueryEndpoint literalEnv exampleRequest {}).2.2 = some st' ∧
      st'.manager.GetTask "task_0" = some t' ∧ TerminalTask t' ∧
      t'.Status ≠ "pending" ∧ t'.Status ≠ "running" :=
  ProcessBackgroundTask_terminal literalEnv fullDisk "task_0" exampleRequest
    (BackgroundQueryEndpoint literalEnv exampleRequest {}).2.2
    { ID := "task_0", Domain := "example.com", Nameservers := ["8.8.8.8"],
      Status := "pending", CreatedAt := 1000 }
    (PendingFresh_BackgroundQueryEndpoint literalEnv exampleRequest {} PendingFresh_empty)
    rfl rfl

end CDNS
